import Mathlib

/-!
Verification of rpmrepo-update core behaviour.

A shallow embedding, in Lean 4, of the core of `rpmrepo-update`, an incremental
YUM/DNF repository metadata updater written in Go, together with theorems
settling the frozen claims about it.

Modelling conventions (shared by the whole development):

* Go machine integers (`int`, `int64`) become `Int`; unsigned sizes (`uint64`)
  become `Nat`.  The integers handled by this program (epochs, timestamps,
  byte counts) are far below any overflow boundary, so no wrap-around is
  modelled.
* Byte slices become `List Nat`.
* `strconv.Itoa` / `strconv.Atoi` are modelled by the executable decimal
  printer `itoa` and parser `atoi` below; their round-trip behaviour is
  proved, not assumed.
* The XML layer is modelled structurally: each of the Go `encoding/xml`
  mapping structs (`primaryXML`, `filelistsXML`, `otherXML`, `repomd`)
  becomes a Lean structure.  Marshalling is the identity on these document
  values, and so is unmarshalling for the filelists, other and repomd
  documents, whose tags carry no namespace prefix.  For the primary
  document, Go's `encoding/xml` does not resolve the `rpm:` prefix on
  unmarshal, so none of the `rpm:`-tagged `primaryFormat` fields (license,
  vendor, group, buildhost, sourcerpm, header-range, and the four
  dependency lists) are ever populated when reading marshalled output back
  (documented in the repository's `TestPackageWithDependencies`); this is
  modelled explicitly by `unmarshalPrimaryDoc`, which zeroes exactly those
  fields.  Byte-level XML serialisation of a document is modelled by an
  injective structural encoding (`docBytes`); no theorem depends on the
  byte layout.
* SHA-256 / SHA-512 digests are modelled by a collision-free symbolic digest
  (`digestHex`) that records the algorithm family and the input bytes; the
  code under verification only ever compares digests for string equality,
  so no theorem depends on the real hash values.
* gzip is modelled by an invertible header-prefixed codec (`gzipBytes` /
  `gunzip`); the code only ever round-trips it and takes lengths.
-/

set_option autoImplicit false

namespace RpmRepo

/-! ## Decimal integer printing and parsing (Go `strconv.Itoa` / `Atoi`) -/

/-- The character for a decimal digit `d < 10`. -/
def digitChar (d : Nat) : Char := Char.ofNat (48 + d)

/-- Decimal digits of `n`, most significant first (`fuel` bounds the
recursion structurally so that concrete values reduce by `rfl`; any
`fuel > n` gives the same result). -/
def natDigitsAux : Nat → Nat → List Nat
  | 0, _ => []
  | fuel + 1, n => if n < 10 then [n] else natDigitsAux fuel (n / 10) ++ [n % 10]

/-- Decimal digits of `n`, most significant first. -/
def natDigits (n : Nat) : List Nat := natDigitsAux (n + 1) n

/-- Decimal rendering of a natural number. -/
def itoaNat (n : Nat) : String := String.mk ((natDigits n).map digitChar)

/-- Model of Go `strconv.Itoa` (and of `fmt.Sprintf` with verb `%d`). -/
def itoa (i : Int) : String :=
  if i < 0 then "-" ++ itoaNat i.natAbs else itoaNat i.toNat

/-- The numeric value of a decimal digit character, if it is one. -/
def charDigit (c : Char) : Option Nat :=
  if 48 ≤ c.toNat ∧ c.toNat ≤ 57 then some (c.toNat - 48) else none

/-- Accumulating decimal parse of a character list; fails on a non-digit. -/
def atoiDigits : List Char → Nat → Option Nat
  | [], acc => some acc
  | c :: cs, acc =>
    match charDigit c with
    | some d => atoiDigits cs (acc * 10 + d)
    | none => none

/-- Parse a non-empty all-digit character list. -/
def atoiNat (cs : List Char) : Option Nat :=
  if cs.isEmpty then none else atoiDigits cs 0

/-- Model of Go `strconv.Atoi`: optional sign followed by decimal digits.
(Go's `int` overflow bound is not modelled; the program only parses epochs.) -/
def atoi (s : String) : Option Int :=
  match s.data with
  | '-' :: rest => (atoiNat rest).map fun n => -(n : Int)
  | '+' :: rest => (atoiNat rest).map fun n => (n : Int)
  | cs => (atoiNat cs).map fun n => (n : Int)

theorem natDigitsAux_congr (n : Nat) :
    ∀ f1 f2, n < f1 → n < f2 → natDigitsAux f1 n = natDigitsAux f2 n := by
  induction n using Nat.strong_induction_on with
  | _ n ih =>
    intro f1 f2 h1 h2
    match f1, f2 with
    | f1 + 1, f2 + 1 =>
      rw [natDigitsAux, natDigitsAux]
      by_cases h10 : n < 10
      · simp [h10]
      · rw [if_neg h10, if_neg h10, ih (n / 10) (by omega) f1 f2 (by omega) (by omega)]

theorem natDigitsAux_eq (fuel n : Nat) (h : n < fuel) :
    natDigitsAux fuel n = natDigits n :=
  natDigitsAux_congr n fuel (n + 1) h (by omega)

theorem natDigits_lt_ten (n : Nat) : ∀ x ∈ natDigits n, x < 10 := by
  suffices h : ∀ fuel n, n < fuel → ∀ x ∈ natDigitsAux fuel n, x < 10 by
    exact h (n + 1) n (by omega)
  intro fuel
  induction fuel with
  | zero => omega
  | succ fuel ih =>
    intro n hn x hx
    rw [natDigitsAux] at hx
    by_cases h10 : n < 10
    · rw [if_pos h10] at hx
      simp at hx; omega
    · rw [if_neg h10] at hx
      rcases List.mem_append.mp hx with h1 | h2
      · exact ih (n / 10) (by omega) x h1
      · simp at h2; omega

theorem natDigits_ne_nil (n : Nat) : natDigits n ≠ [] := by
  rw [natDigits, natDigitsAux]
  split <;> simp

theorem charDigit_digitChar {d : Nat} (h : d < 10) :
    charDigit (digitChar d) = some d := by
  interval_cases d <;> rfl

theorem digitChar_ne_minus {d : Nat} (h : d < 10) : digitChar d ≠ '-' := by
  interval_cases d <;> decide

theorem digitChar_ne_plus {d : Nat} (h : d < 10) : digitChar d ≠ '+' := by
  interval_cases d <;> decide

theorem atoiDigits_append (l1 l2 : List Char) (acc : Nat) :
    atoiDigits (l1 ++ l2) acc =
      match atoiDigits l1 acc with
      | some a => atoiDigits l2 a
      | none => none := by
  induction l1 generalizing acc with
  | nil => rfl
  | cons c cs ih =>
    simp only [List.cons_append, atoiDigits]
    cases charDigit c with
    | some d => exact ih _
    | none => rfl

theorem atoiDigits_natDigits (n : Nat) :
    ∀ acc : Nat, atoiDigits ((natDigits n).map digitChar) acc =
      some (acc * 10 ^ (natDigits n).length + n) := by
  suffices h : ∀ fuel n, n < fuel → ∀ acc : Nat,
      atoiDigits ((natDigitsAux fuel n).map digitChar) acc =
        some (acc * 10 ^ (natDigitsAux fuel n).length + n) by
    exact h (n + 1) n (by omega)
  intro fuel
  induction fuel with
  | zero => omega
  | succ fuel ih =>
    intro n hn acc
    rw [natDigitsAux]
    by_cases h10 : n < 10
    · rw [if_pos h10]
      simp [atoiDigits, charDigit_digitChar h10]
    · rw [if_neg h10]
      rw [List.map_append, atoiDigits_append]
      rw [ih (n / 10) (by omega) acc]
      have hm : n % 10 < 10 := Nat.mod_lt _ (by omega)
      simp only [List.map_cons, List.map_nil, atoiDigits, charDigit_digitChar hm,
        List.length_append, List.length_cons, List.length_nil]
      congr 1
      rw [show (natDigitsAux fuel (n / 10)).length + (0 + 1) =
          (natDigitsAux fuel (n / 10)).length + 1 from by omega,
        pow_succ, ← mul_assoc]
      generalize acc * 10 ^ (natDigitsAux fuel (n / 10)).length = m
      omega

theorem atoiNat_itoaNat (n : Nat) : atoiNat ((itoaNat n).data) = some n := by
  have hne : (natDigits n).map digitChar ≠ [] := by
    intro h
    exact natDigits_ne_nil n (by simpa using h)
  show atoiNat ((natDigits n).map digitChar) = some n
  rw [atoiNat, if_neg (by simpa using hne)]
  rw [atoiDigits_natDigits n 0]
  simp

theorem atoi_itoa (i : Int) : atoi (itoa i) = some i := by
  by_cases h : i < 0
  · have hdata : ("-" ++ itoaNat i.natAbs).data = '-' :: (itoaNat i.natAbs).data := by
      simp [String.data_append]
    rw [itoa, if_pos h, atoi]
    rw [hdata]
    simp only [atoiNat_itoaNat]
    simp [abs_of_neg h]
  · push_neg at h
    rw [itoa, if_neg (by omega)]
    obtain ⟨d, ds, hds⟩ : ∃ d ds, natDigits i.toNat = d :: ds := by
      cases hnd : natDigits i.toNat with
      | nil => exact absurd hnd (natDigits_ne_nil _)
      | cons d ds => exact ⟨d, ds, rfl⟩
    have hd10 : d < 10 := natDigits_lt_ten _ d (hds ▸ List.mem_cons_self _ _)
    have hdata : (itoaNat i.toNat).data = digitChar d :: ds.map digitChar := by
      simp [itoaNat, hds]
    rw [atoi]
    rw [hdata]
    have hm := digitChar_ne_minus hd10
    have hp := digitChar_ne_plus hd10
    split
    · next heq => injection heq with h1 _; exact absurd h1 hm
    · next heq => injection heq with h1 _; exact absurd h1 hp
    · rw [← hdata, atoiNat_itoaNat]
      simp [Int.toNat_of_nonneg h]

/-! ## Structural string helpers

Lean's own `String.toLower`, `String.startsWith`, `String.splitOn` and
substring trims are defined through well-founded recursion on byte
positions and do not reduce inside the kernel; the model uses these
structurally recursive equivalents (ASCII behaviour is identical). -/

/-- Go `strings.ToLower` (ASCII). -/
def toLowerStr (s : String) : String := String.mk (s.data.map Char.toLower)

/-- Go `strings.HasPrefix` / `HasSuffix`-free prefix test. -/
def strStartsWith (s pre : String) : Bool := pre.data.isPrefixOf s.data

/-- Split a character list at a separator character. -/
def splitChar (sep : Char) (cs : List Char) : List (List Char) :=
  cs.foldr (fun c acc =>
    if c = sep then [] :: acc
    else match acc with
    | [] => [[c]]
    | g :: gs => (c :: g) :: gs) [[]]

/-! ## Data model (src/pkg/metadata/model.go)

`Package`, `Relation`, `File`, `Changelog` mirror the Go structs field for
field.  Go `int` fields become `Int`, `int64` become `Int`, `uint64` become
`Nat`.  Field names follow the Go names (lower-cased); `Type` fields are
renamed (`ftype`, `dtype`, `ctype`) because `type` is a Lean keyword. -/

structure Relation where
  name : String
  flags : String
  epoch : Int
  ver : String
  rel : String
  pre : Bool
deriving Repr, DecidableEq, Inhabited

structure FileRec where
  path : String
  ftype : String
deriving Repr, DecidableEq, Inhabited

structure Changelog where
  author : String
  date : Int
  text : String
deriving Repr, DecidableEq, Inhabited

structure Package where
  name : String
  arch : String
  epoch : Int
  version : String
  release : String
  summary : String
  description : String
  license : String
  vendor : String
  group : String
  buildHost : String
  sourceRPM : String
  url : String
  packager : String
  timeBuild : Int
  timeFile : Int
  sizePackage : Nat
  sizeInstalled : Nat
  sizeArchive : Nat
  location : String
  pkgID : String
  checksumType : String
  headerStart : Int
  headerEnd : Int
  provides : List Relation
  requires : List Relation
  conflicts : List Relation
  obsoletes : List Relation
  files : List FileRec
  changelogs : List Changelog
deriving Repr, DecidableEq, Inhabited

/-- Go `Package.NEVRA()`: `name-[epoch:]version-release.arch`, the epoch part
present only when the epoch is positive. -/
def Package.NEVRA (p : Package) : String :=
  let epochPart := if p.epoch > 0 then itoa p.epoch ++ ":" else ""
  p.name ++ "-" ++ epochPart ++ p.version ++ "-" ++ p.release ++ "." ++ p.arch

/-! ## XML mapping structures (the Go `encoding/xml` structs) -/

structure RpmVersionX where
  epoch : String
  ver : String
  rel : String
deriving Repr, DecidableEq, Inhabited

structure RpmPkgChecksumX where
  ctype : String
  pkgid : String
  value : String
deriving Repr, DecidableEq, Inhabited

structure HeaderRangeX where
  start : Int
  stop : Int
deriving Repr, DecidableEq, Inhabited

structure DepEntryX where
  name : String
  flags : String
  epoch : String
  ver : String
  rel : String
  pre : String
deriving Repr, DecidableEq, Inhabited

structure LocationX where
  href : String
deriving Repr, DecidableEq, Inhabited

structure PrimaryFormatX where
  license : String
  vendor : String
  group : String
  buildHost : String
  sourceRPM : String
  headerRange : Option HeaderRangeX
  provides : List DepEntryX
  requires : List DepEntryX
  conflicts : List DepEntryX
  obsoletes : List DepEntryX
deriving Repr, DecidableEq, Inhabited

structure PrimaryTimeX where
  file : Int
  build : Int
deriving Repr, DecidableEq, Inhabited

structure PrimarySizeX where
  package : Nat
  installed : Nat
  archive : Nat
deriving Repr, DecidableEq, Inhabited

structure PrimaryPackageX where
  ptype : String
  name : String
  arch : String
  version : RpmVersionX
  checksum : RpmPkgChecksumX
  summary : String
  description : String
  packager : String
  url : String
  time : PrimaryTimeX
  size : PrimarySizeX
  location : LocationX
  format : PrimaryFormatX
deriving Repr, DecidableEq, Inhabited

structure PrimaryDoc where
  xmlns : String
  xmlnsRpm : String
  count : Int
  packages : List PrimaryPackageX
deriving Repr, DecidableEq, Inhabited

structure FileEntryX where
  ftype : String
  path : String
deriving Repr, DecidableEq, Inhabited

structure FilelistsPackageX where
  pkgid : String
  name : String
  arch : String
  version : RpmVersionX
  files : List FileEntryX
deriving Repr, DecidableEq, Inhabited

structure FilelistsDoc where
  xmlns : String
  count : Int
  packages : List FilelistsPackageX
deriving Repr, DecidableEq, Inhabited

structure ChangelogEntryX where
  author : String
  date : Int
  text : String
deriving Repr, DecidableEq, Inhabited

structure OtherPackageX where
  pkgid : String
  name : String
  arch : String
  version : RpmVersionX
  changelogs : List ChangelogEntryX
deriving Repr, DecidableEq, Inhabited

structure OtherDoc where
  xmlns : String
  count : Int
  packages : List OtherPackageX
deriving Repr, DecidableEq, Inhabited

/-- Namespace constants from the Go source. -/
def CommonNamespace : String := "http://linux.duke.edu/metadata/common"

def FilelistsNamespace : String := "http://linux.duke.edu/metadata/filelists"

def OtherNamespace : String := "http://linux.duke.edu/metadata/other"

def RpmNamespace : String := "http://linux.duke.edu/metadata/rpm"

def RepoNamespace : String := "http://linux.duke.edu/metadata/repo"

/-! ## Metadata engine: render and parse (src/pkg/metadata/model.go)

`ParsePackagesFromXML` and `RenderCoreXML` are modelled at the level of the
XML document structures.  Go's `xml.Unmarshal`/`MarshalIndent` between
document values and bytes is the identity at this level; the byte layer is
handled separately by `docBytes`.  Go's `ParsePackagesFromXML` applies the
filelists/other documents whenever their byte payloads are non-empty; both
are always given here, matching every call site (rendered payloads are never
empty). -/

/-- Go `parseEpoch`: empty string and unparsable strings map to 0. -/
def parseEpoch (s : String) : Int :=
  if s = "" then 0 else (atoi s).getD 0

/-- Go `relationsFromEntries`. -/
def relationsFromEntries (entries : List DepEntryX) : List Relation :=
  entries.map fun e =>
    { name := e.name, flags := e.flags, epoch := parseEpoch e.epoch,
      ver := e.ver, rel := e.rel, pre := e.pre = "1" }

/-- Go `entriesFromRelations`. -/
def entriesFromRelations (rels : List Relation) : List DepEntryX :=
  rels.map fun r =>
    { name := r.name, flags := r.flags, epoch := itoa r.epoch,
      ver := r.ver, rel := r.rel, pre := if r.pre then "1" else "" }

/-- Go `packageFromPrimary`: build a descriptor from a primary entry; the
files and changelogs start empty and are filled in from the other two
documents. -/
def packageFromPrimary (p : PrimaryPackageX) : Package :=
  { name := p.name, arch := p.arch, epoch := parseEpoch p.version.epoch,
    version := p.version.ver, release := p.version.rel,
    summary := p.summary, description := p.description,
    license := p.format.license, vendor := p.format.vendor,
    group := p.format.group, buildHost := p.format.buildHost,
    sourceRPM := p.format.sourceRPM, url := p.url, packager := p.packager,
    timeBuild := p.time.build, timeFile := p.time.file,
    sizePackage := p.size.package, sizeInstalled := p.size.installed,
    sizeArchive := p.size.archive, location := p.location.href,
    pkgID := p.checksum.value, checksumType := p.checksum.ctype,
    headerStart := match p.format.headerRange with
      | some h => h.start
      | none => 0,
    headerEnd := match p.format.headerRange with
      | some h => h.stop
      | none => 0,
    provides := relationsFromEntries p.format.provides,
    requires := relationsFromEntries p.format.requires,
    conflicts := relationsFromEntries p.format.conflicts,
    obsoletes := relationsFromEntries p.format.obsoletes,
    files := [], changelogs := [] }

/-- Index of the LAST occurrence of `id` in `ids`, mirroring the Go map
`index[pkg.PkgID] = &pkgs[i]` built left to right (later entries win). -/
def lastIdxOf : List String → String → Option Nat
  | [], _ => none
  | x :: xs, id =>
    match lastIdxOf xs id with
    | some k => some (k + 1)
    | none => if x = id then some 0 else none

/-- Replace the element at position `i` (no-op when out of range). -/
def updateAt {α : Type} : List α → Nat → (α → α) → List α
  | [], _, _ => []
  | x :: xs, 0, f => f x :: xs
  | x :: xs, n + 1, f => x :: updateAt xs n f

/-- One step of Go `parseFilelistsInto`: look the entry's `pkgid` up in the
index built from primary (unknown `pkgid` is skipped) and append its files
to that descriptor. -/
def flStep (idx : String → Option Nat) (acc : List Package)
    (p : FilelistsPackageX) : List Package :=
  match idx p.pkgid with
  | some i => updateAt acc i fun pkg =>
      { pkg with files := pkg.files ++ p.files.map fun f => ⟨f.path, f.ftype⟩ }
  | none => acc

/-- Go `parseFilelistsInto` over all entries. -/
def applyFilelists (idx : String → Option Nat) (base : List Package)
    (entries : List FilelistsPackageX) : List Package :=
  entries.foldl (flStep idx) base

/-- One step of Go `parseOtherInto`, analogous to `flStep`. -/
def otStep (idx : String → Option Nat) (acc : List Package)
    (p : OtherPackageX) : List Package :=
  match idx p.pkgid with
  | some i => updateAt acc i fun pkg =>
      { pkg with changelogs := pkg.changelogs ++
          p.changelogs.map fun c => ⟨c.author, c.date, c.text⟩ }
  | none => acc

/-- Go `parseOtherInto` over all entries. -/
def applyOther (idx : String → Option Nat) (base : List Package)
    (entries : List OtherPackageX) : List Package :=
  entries.foldl (otStep idx) base

/-- Go `ParsePackagesFromXML` (document level): parse primary into
descriptors, then attach files and changelogs by `pkgid`. -/
def ParsePackagesFromXML (prim : PrimaryDoc) (fl : FilelistsDoc) (oth : OtherDoc) :
    List Package :=
  let base := prim.packages.map packageFromPrimary
  let idx := fun id => lastIdxOf (base.map Package.pkgID) id
  applyOther idx (applyFilelists idx base fl.packages) oth.packages

/-- The `format` subtree built by Go `marshalPrimary` for one package: the
header range is only emitted when one of its bounds is positive. -/
def marshalPrimaryFormat (p : Package) : PrimaryFormatX :=
  { license := p.license, vendor := p.vendor, group := p.group,
    buildHost := p.buildHost, sourceRPM := p.sourceRPM,
    headerRange := if p.headerStart > 0 ∨ p.headerEnd > 0
      then some { start := p.headerStart, stop := p.headerEnd } else none,
    provides := entriesFromRelations p.provides,
    requires := entriesFromRelations p.requires,
    conflicts := entriesFromRelations p.conflicts,
    obsoletes := entriesFromRelations p.obsoletes }

/-- The per-package body of Go `marshalPrimary`. -/
def marshalPrimaryPackage (p : Package) : PrimaryPackageX :=
  { ptype := "rpm", name := p.name, arch := p.arch,
    version := { epoch := itoa p.epoch, ver := p.version, rel := p.release },
    checksum := { ctype := p.checksumType, pkgid := "YES", value := p.pkgID },
    summary := p.summary, description := p.description,
    packager := p.packager, url := p.url,
    time := { file := p.timeFile, build := p.timeBuild },
    size := { package := p.sizePackage, installed := p.sizeInstalled,
              archive := p.sizeArchive },
    location := { href := p.location },
    format := marshalPrimaryFormat p }

/-- Go `marshalPrimary` (document level). -/
def marshalPrimary (pkgs : List Package) : PrimaryDoc :=
  { xmlns := CommonNamespace, xmlnsRpm := RpmNamespace,
    count := (pkgs.length : Int), packages := pkgs.map marshalPrimaryPackage }

/-- Go `marshalFilelists` (document level). -/
def marshalFilelists (pkgs : List Package) : FilelistsDoc :=
  { xmlns := FilelistsNamespace, count := (pkgs.length : Int),
    packages := pkgs.map fun p =>
      { pkgid := p.pkgID, name := p.name, arch := p.arch,
        version := { epoch := itoa p.epoch, ver := p.version, rel := p.release },
        files := p.files.map fun f => ⟨f.ftype, f.path⟩ } }

/-- Go `marshalOther` (document level). -/
def marshalOther (pkgs : List Package) : OtherDoc :=
  { xmlns := OtherNamespace, count := (pkgs.length : Int),
    packages := pkgs.map fun p =>
      { pkgid := p.pkgID, name := p.name, arch := p.arch,
        version := { epoch := itoa p.epoch, ver := p.version, rel := p.release },
        changelogs := p.changelogs.map fun c => ⟨c.author, c.date, c.text⟩ } }

/-- Lexicographic comparison of character lists by codepoint, modelling
Go's bytewise string `<=`. -/
def charListLE : List Char → List Char → Bool
  | [], _ => true
  | _ :: _, [] => false
  | c :: cs, d :: ds =>
    if c.toNat < d.toNat then true
    else if d.toNat < c.toNat then false
    else charListLE cs ds

/-- String comparison on the underlying characters. -/
def strLE (a b : String) : Bool := charListLE a.data b.data

instance decNevraLE :
    DecidableRel (fun a b : Package => strLE a.NEVRA b.NEVRA = true) :=
  fun a b => inferInstanceAs (Decidable (strLE a.NEVRA b.NEVRA = true))

/-- The `sort.Slice` call in Go `RenderCoreXML`: packages ordered by NEVRA.
`sort.Slice` fixes no order among equal keys; insertion sort is one
refinement of it. -/
def sortByNEVRA (pkgs : List Package) : List Package :=
  List.insertionSort (fun a b => strLE a.NEVRA b.NEVRA = true) pkgs

/-- Go `RenderCoreXML` (document level): sort by NEVRA, then render the
three documents. -/
def RenderCoreXML (pkgs : List Package) : PrimaryDoc × FilelistsDoc × OtherDoc :=
  let sorted := sortByNEVRA pkgs
  (marshalPrimary sorted, marshalFilelists sorted, marshalOther sorted)

/-! ## Bytes, digests, compression (model.go helpers, part_003)

Byte slices are `List Nat`.  Digests are symbolic: `digestHex alg data`
records the algorithm family and the input, a collision-free idealisation of
SHA-256/SHA-512; the program only compares digests for equality.  gzip is an
invertible header-prefixed codec. -/

abbrev Bytes := List Nat

/-- Structural byte encoding of a string (used where the Go code serialises
a document; no theorem depends on the byte layout). -/
def strBytes (s : String) : Bytes := s.data.map Char.toNat

/-- Symbolic hex digest standing in for SHA-256/SHA-512. -/
def digestHex (alg : String) (data : Bytes) : String :=
  alg ++ ":" ++ toString data

/-- Go `ComputeChecksum`: dispatches on the lower-cased algorithm name and
fails on anything that is not SHA-256/SHA-512. -/
def ComputeChecksum (data : Bytes) (alg : String) : Except String String :=
  match toLowerStr alg with
  | "sha256" => .ok (digestHex "sha256" data)
  | "sha512" => .ok (digestHex "sha512" data)
  | _ => .error ("unsupported checksum algorithm " ++ alg)

/-- Go `SupportedChecksum` (case-insensitive). -/
def SupportedChecksum (alg : String) : Bool :=
  toLowerStr alg == "sha256" || toLowerStr alg == "sha512"

/-- Go `gzipBytes`, modelled as a header-prefixed invertible codec. -/
def gzipBytes (content : Bytes) : Bytes := 31 :: 139 :: content

/-- Go `gunzip`: inverse of `gzipBytes`; fails on data without the header. -/
def gunzip (data : Bytes) : Except String Bytes :=
  match data with
  | 31 :: 139 :: rest => .ok rest
  | _ => .error "gzip: invalid header"

/-! ## Core file bundles and the manifest (part_003, repomd.go) -/

structure CoreFile where
  ctype : String
  path : String
  compressed : Bytes
  uncompressed : Bytes
  checksum : String
  openChecksum : String
  size : Int
  openSize : Int
  timestamp : Int
deriving Repr, DecidableEq, Inhabited

structure ChecksumX where
  ctype : String
  value : String
deriving Repr, DecidableEq, Inhabited

structure RepoData where
  dtype : String
  checksum : ChecksumX
  openChecksum : Option ChecksumX
  location : LocationX
  timestamp : Int
  size : Int
  openSize : Int
deriving Repr, DecidableEq, Inhabited

structure RepoMD where
  xmlns : String
  revision : String
  data : List RepoData
deriving Repr, DecidableEq, Inhabited

/-- Structural byte encodings of the three core documents (standing in for
Go `marshalWithHeader`). -/
def primaryDocBytes (d : PrimaryDoc) : Bytes := strBytes (reprStr d)

def filelistsDocBytes (d : FilelistsDoc) : Bytes := strBytes (reprStr d)

def otherDocBytes (d : OtherDoc) : Bytes := strBytes (reprStr d)

/-- Go `MarshalRepoMD` (byte level, structural encoding; fills in the
namespace when empty, as the Go function does). -/
def MarshalRepoMD (md : RepoMD) : Bytes :=
  let md := if md.xmlns = "" then { md with xmlns := RepoNamespace } else md
  strBytes (reprStr md)

/-- The body of the Go core-file build loops for a single payload:
compress, digest both forms, and name the file after the compressed
digest. -/
def coreFilePayload (alg : String) (now : Int) (pr : String × Bytes) :
    Except String CoreFile := do
  let compressed := gzipBytes pr.2
  let sum ← ComputeChecksum compressed alg
  let openSum ← ComputeChecksum pr.2 alg
  let path := "repodata/" ++ sum ++ "-" ++ pr.1 ++ ".xml.gz"
  pure { ctype := pr.1, path := path, compressed := compressed,
         uncompressed := pr.2, checksum := sum, openChecksum := openSum,
         size := (compressed.length : Int),
         openSize := (pr.2.length : Int), timestamp := now }

/-- Shared body of the Go core-file build loops: compress, digest, and name
each payload. -/
def buildCoreFromPayloads (payloads : List (String × Bytes)) (alg : String)
    (now : Int) : Except String (List CoreFile) :=
  payloads.mapM (coreFilePayload alg now)

/-- Go `BuildCoreFilesFromPackages`: render, compress, digest, and name the
three core payloads with the (lower-cased) algorithm. -/
def BuildCoreFilesFromPackages (pkgs : List Package) (checksumAlg : String)
    (now : Int) : Except String (List CoreFile) :=
  let alg := toLowerStr checksumAlg
  if !SupportedChecksum alg then
    .error ("unsupported checksum algorithm " ++ alg)
  else
    let rendered := RenderCoreXML pkgs
    buildCoreFromPayloads
      [("primary", primaryDocBytes rendered.1),
       ("filelists", filelistsDocBytes rendered.2.1),
       ("other", otherDocBytes rendered.2.2)] alg now

/-- Go `GetCoreData`: last `primary`/`filelists`/`other` entry of the
manifest (the loop overwrites, so later entries of a type win). -/
def GetCoreData (md : RepoMD) :
    Option RepoData × Option RepoData × Option RepoData :=
  md.data.foldl (fun acc d =>
    match d.dtype with
    | "primary" => (some d, acc.2.1, acc.2.2)
    | "filelists" => (acc.1, some d, acc.2.2)
    | "other" => (acc.1, acc.2.1, some d)
    | _ => acc) (none, none, none)

/-! ## Backend store model (part_005)

A backend is a finite map from repo-relative paths to byte contents.  Both
Go backends (filesystem and object store) present this interface; their
write paths are atomic per file, so a successful `WriteFile`/`DeleteFile`
is modelled as a pure map update.  `canDelete` oracles model I/O failures
of `DeleteFile` where a claim is about failure handling. -/

structure Store where
  files : List (String × Bytes)
deriving Repr, DecidableEq, Inhabited

def Store.read (s : Store) (p : String) : Option Bytes :=
  (s.files.find? fun e => e.1 == p).map fun e => e.2

def Store.writeFile (s : Store) (p : String) (b : Bytes) : Store :=
  if s.files.any fun e => e.1 == p then
    ⟨s.files.map fun e => if e.1 == p then (p, b) else e⟩
  else ⟨s.files ++ [(p, b)]⟩

def Store.deleteFile (s : Store) (p : String) : Store :=
  ⟨s.files.filter fun e => !(e.1 == p)⟩

/-- `ListRepodata`: every stored path under `repodata/`. -/
def Store.listRepodata (s : Store) : List String :=
  (s.files.map Prod.fst).filter fun p => strStartsWith p "repodata/"

def Store.pathExists (s : Store) (p : String) : Bool :=
  (s.read p).isSome

/-! ## Read-path verification (src/pkg/metadata/load.go) -/

/-- Go `ReadAndVerifyCore`: fetch a core payload, decompress it, and verify
both digests against the manifest entry; each failure is distinct. -/
def ReadAndVerifyCore (st : Store) (d : RepoData) : Except String CoreFile :=
  if d.location.href = "" then .error "missing location href"
  else
    match st.read d.location.href with
    | none => .error ("read " ++ d.location.href ++ ": not found")
    | some compressed =>
      match gunzip compressed with
      | .error e => .error ("decompress " ++ d.location.href ++ ": " ++ e)
      | .ok uncompressed =>
        match d.openChecksum with
        | none => .error "missing checksum metadata"
        | some oc =>
          if d.checksum.ctype = "" ∨ oc.ctype = "" then .error "missing checksum metadata"
          else if !SupportedChecksum d.checksum.ctype then
            .error ("unsupported checksum type " ++ d.checksum.ctype)
          else
            match ComputeChecksum compressed d.checksum.ctype with
            | .error e => .error e
            | .ok sum =>
              if sum ≠ d.checksum.value then
                .error ("checksum mismatch for " ++ d.dtype ++ ": expected " ++
                  d.checksum.value ++ " got " ++ sum)
              else
                match ComputeChecksum uncompressed oc.ctype with
                | .error e => .error e
                | .ok openSum =>
                  if openSum ≠ oc.value then
                    .error ("open-checksum mismatch for " ++ d.dtype ++ ": expected " ++
                      oc.value ++ " got " ++ openSum)
                  else
                    .ok { ctype := d.dtype, path := d.location.href,
                          compressed := compressed, uncompressed := uncompressed,
                          checksum := sum, openChecksum := openSum,
                          size := (compressed.length : Int),
                          openSize := (uncompressed.length : Int),
                          timestamp := d.timestamp }

/-! ## Update engine (src/unnamed/part_002, src/pkg/repo) -/

/-- Go `normalizeChecksum` (case-sensitive: anything but exactly `sha256`
or `sha512` falls back to `sha256`). -/
def normalizeChecksum (alg : String) : String :=
  match alg with
  | "sha256" => alg
  | "sha512" => alg
  | _ => "sha256"

/-- The checksum-algorithm discovery of Go `loadPackages` (lines 44-48):
the manifest primary entry's recorded type, `sha256` when empty. -/
def loadedChecksumAlg (primaryData : RepoData) : String :=
  if primaryData.checksum.ctype = "" then "sha256" else primaryData.checksum.ctype

/-- Append `t` unless present: deterministic (insertion-ordered) model of
the Go set `unknownTypes map[string]struct\x7b\x7d` (whose iteration order is
unspecified; every order-insensitive statement below is unaffected). -/
def insertIfAbsent (l : List String) (t : String) : List String :=
  if l.contains t then l else l ++ [t]

/-- The warning text emitted per unknown metadata type. -/
def unknownTypeWarning (t : String) : String :=
  "preserving unknown metadata type '" ++ t ++ "' from repomd.xml; checksum not verified"

/-- The manifest entry `assembleRepoMD` appends for one new core bundle
(the algorithm falls back to `sha256` when empty). -/
def newCoreEntry (checksumAlg : String) (cf : CoreFile) : RepoData :=
  { dtype := cf.ctype,
    checksum := { ctype := if checksumAlg = "" then "sha256" else checksumAlg,
                  value := cf.checksum },
    openChecksum := some
      { ctype := if checksumAlg = "" then "sha256" else checksumAlg,
        value := cf.openChecksum },
    location := { href := cf.path },
    timestamp := cf.timestamp, size := cf.size, openSize := cf.openSize }

/-- One iteration of the `assembleRepoMD` loop over the previous manifest's
entries. -/
def assembleStep (allowUnknown : Bool) (acc : List RepoData × List String)
    (d : RepoData) : List RepoData × List String :=
  match d.dtype with
  | "primary" => acc
  | "filelists" => acc
  | "other" => acc
  | "prestodelta" => acc
  | "modules" => (acc.1 ++ [d], acc.2)
  | _ =>
    if allowUnknown then (acc.1 ++ [d], insertIfAbsent acc.2 d.dtype)
    else (acc.1, insertIfAbsent acc.2 d.dtype)

/-- Go `assembleRepoMD`: drop core and `prestodelta` entries, keep `modules`
verbatim, keep unknown entries only under `allowUnknown` (warning either
way, once per distinct type), then append the new core entries. -/
def assembleRepoMD (old : RepoMD) (core : List CoreFile) (checksumAlg : String)
    (now : Int) (allowUnknown : Bool) : RepoMD × List String :=
  let xmlns := if old.xmlns = "" then RepoNamespace else old.xmlns
  let looped := old.data.foldl (assembleStep allowUnknown) ([], [])
  ({ xmlns := xmlns, revision := itoa now,
     data := looped.1 ++ core.map (newCoreEntry checksumAlg) },
   looped.2.map unknownTypeWarning)

/-- Observable backend operations of a transaction, in program order. -/
inductive Event where
  | checkManifest
  | existsQuery (path : String)
  | writeFile (path : String)
  | listRepodata
  | deleteFile (path : String)
  | deleteFailed (path : String)
deriving Repr, DecidableEq

/-- A transaction outcome: the backend operations it performed, in order,
and its result. -/
structure RunOut (α : Type) where
  events : List Event
  out : Except String α

/-- The referenced-path set computed by Go `cleanupOldMetadata`: the
manifest, its signature, and every `location.href` of the new manifest. -/
def referencedPaths (md : RepoMD) : List String :=
  ["repodata/repomd.xml", "repodata/repomd.xml.asc"] ++
    md.data.map fun d => d.location.href

/-- One iteration of the Go `cleanupOldMetadata` delete loop. -/
def gcStep (canDelete : String → Bool) (referenced : List String)
    (acc : Store × List Event × List String) (f : String) :
    Store × List Event × List String :=
  if referenced.contains f then acc
  else if strStartsWith f "repodata/.tmp" then acc
  else if canDelete f then
    (acc.1.deleteFile f, acc.2.1 ++ [Event.deleteFile f], acc.2.2)
  else
    (acc.1, acc.2.1 ++ [Event.deleteFailed f], acc.2.2 ++ ["warn: delete " ++ f])

/-- Go `cleanupOldMetadata`: list `repodata/`, keep the manifest, its
signature, every href of the new manifest, and everything under
`repodata/.tmp`; delete the rest.  A delete refused by `canDelete` is
logged as a warning and skipped. -/
def cleanupOldMetadata (canDelete : String → Bool) (st : Store) (md : RepoMD) :
    Store × List Event × List String :=
  st.listRepodata.foldl (gcStep canDelete (referencedPaths md))
    (st, [Event.listRepodata], [])

/-- Transaction-level configuration of a `Repo` plus backend behaviour:
`validator` is the outcome `CheckRepomdUnchanged` would produce when the
backend implements it (`none` when it does not), and `canDelete` is the
`DeleteFile` failure oracle. -/
structure RepoCfg where
  allowUnknown : Bool
  validator : Option (Except String Unit)
  canDelete : String → Bool

/-- Result of a successful metadata rewrite. -/
structure RewriteResult where
  store : Store
  newMD : RepoMD
  warnings : List String

/-- Go `writeMetadata`: optional conditional check, algorithm
normalisation, core rendering, manifest assembly, child writes, manifest
write, then garbage collection (whose failures are only warnings). -/
def writeMetadata (cfg : RepoCfg) (st : Store) (md : RepoMD)
    (pkgs : List Package) (checksumAlg : String) (now : Int) :
    RunOut RewriteResult :=
  match cfg.validator with
  | some (.error e) => ⟨[Event.checkManifest], .error e⟩
  | v =>
    let pre : List Event := match v with
      | some _ => [Event.checkManifest]
      | none => []
    let alg := normalizeChecksum checksumAlg
    match BuildCoreFilesFromPackages pkgs alg now with
    | .error e => ⟨pre, .error ("build core metadata: " ++ e)⟩
    | .ok coreFiles =>
      let asm := assembleRepoMD md coreFiles alg now cfg.allowUnknown
      let repomdBytes := MarshalRepoMD asm.1
      let st1 := coreFiles.foldl (fun acc cf => acc.writeFile cf.path cf.compressed) st
      let coreEvents := coreFiles.map fun cf => Event.writeFile cf.path
      let st2 := st1.writeFile "repodata/repomd.xml" repomdBytes
      let gc := cleanupOldMetadata cfg.canDelete st2 asm.1
      ⟨pre ++ coreEvents ++ [Event.writeFile "repodata/repomd.xml"] ++ gc.2.1,
       .ok ⟨gc.1, asm.1, (asm.2.map fun w => "warn: " ++ w) ++ gc.2.2⟩⟩

/-! ## Object-store conditional check (part_005, S3Backend) -/

/-- The ETag-relevant state of Go `S3Backend`: the token cached when the
manifest was last read through this backend instance (empty string when it
never was), and the switch disabling conditional mode. -/
structure S3State where
  repomdETag : String
  disableETag : Bool
deriving Repr, DecidableEq, Inhabited

/-- Go `strings.Trim(s, "\"")`: remove leading and trailing quote runs. -/
def trimQuotes (s : String) : String :=
  String.mk (((s.data.dropWhile fun c => c == '"').reverse.dropWhile
    fun c => c == '"').reverse)

/-- Go `S3Backend.CheckRepomdUnchanged`: a no-op when conditional mode is
disabled or no token is cached; otherwise HEAD the manifest (`head` is the
outcome) and fail with a conflict error when the current token differs
from the cached one. -/
def CheckRepomdUnchanged (b : S3State) (head : Except String String) :
    Except String Unit :=
  if b.disableETag || b.repomdETag == "" then .ok ()
  else
    match head with
    | .error e => .error e
    | .ok etag =>
      if trimQuotes etag ≠ b.repomdETag then
        .error ("conflict: repomd.xml changed since read (etag " ++
          b.repomdETag ++ " -> " ++ trimQuotes etag ++ ")")
      else .ok ()

/-- Conflict errors are distinguished by their `conflict:` message. -/
def isConflictErr (e : String) : Bool :=
  strStartsWith e "conflict:"

/-! ## Repository initialisation (repo.go, part_003) -/

/-- Go `BuildEmptyCoreFiles`: three empty documents (`packages="0"`),
compressed and digested, plus the fresh manifest listing them. -/
def BuildEmptyCoreFiles (checksumAlg : String) (now : Int) :
    Except String (List CoreFile × RepoMD) :=
  let alg := toLowerStr checksumAlg
  if !SupportedChecksum alg then
    .error ("unsupported checksum algorithm " ++ alg)
  else
    let payloads : List (String × Bytes) :=
      [("primary", primaryDocBytes
         { xmlns := CommonNamespace, xmlnsRpm := RpmNamespace, count := 0,
           packages := [] }),
       ("filelists", filelistsDocBytes
         { xmlns := FilelistsNamespace, count := 0, packages := [] }),
       ("other", otherDocBytes
         { xmlns := OtherNamespace, count := 0, packages := [] })]
    match buildCoreFromPayloads payloads alg now with
    | .error e => .error e
    | .ok coreFiles =>
      let repomd : RepoMD :=
        { xmlns := "", revision := itoa now,
          data := coreFiles.map fun f =>
            { dtype := f.ctype,
              checksum := { ctype := alg, value := f.checksum },
              openChecksum := some { ctype := alg, value := f.openChecksum },
              location := { href := f.path },
              timestamp := f.timestamp, size := f.size,
              openSize := f.openSize } }
      .ok (coreFiles, repomd)

/-- The detached signature contract of the external signing tool (spec
§6): some bytes derived from the manifest bytes. -/
def detachedSignature (b : Bytes) : Bytes := 1 :: b

/-- Go `InitRepo`: refuse to overwrite an existing manifest without
`force`; write the three empty core files, then the manifest, then
optionally its detached signature. -/
def InitRepo (st : Store) (checksumAlg : String) (force : Bool)
    (signRepodata : Bool) (now : Int) : RunOut Store :=
  let ev0 := [Event.existsQuery "repodata/repomd.xml"]
  if st.pathExists "repodata/repomd.xml" && !force then
    ⟨ev0, .error "repodata/repomd.xml already exists (use --force to overwrite)"⟩
  else
    match BuildEmptyCoreFiles checksumAlg now with
    | .error e => ⟨ev0, .error e⟩
    | .ok built =>
      let repomdBytes := MarshalRepoMD built.2
      let st1 := built.1.foldl (fun acc cf => acc.writeFile cf.path cf.compressed) st
      let coreEvents := built.1.map fun cf => Event.writeFile cf.path
      let st2 := st1.writeFile "repodata/repomd.xml" repomdBytes
      if signRepodata then
        let st3 := st2.writeFile "repodata/repomd.xml.asc" (detachedSignature repomdBytes)
        ⟨ev0 ++ coreEvents ++ [Event.writeFile "repodata/repomd.xml",
          Event.writeFile "repodata/repomd.xml.asc"], .ok st3⟩
      else
        ⟨ev0 ++ coreEvents ++ [Event.writeFile "repodata/repomd.xml"], .ok st2⟩

/-! ## Add transaction (src/pkg/repo/add.go)

The NEVRA index map of Go `AddRPMs` is an association list with
replace-or-append insertion, exactly the Go `map[string]int` behaviour for
the operations used (insert and lookup; iteration order is never used).
Each incoming RPM is represented by the descriptor the inspector produced
for it; reading and inspecting the file are outside this model. -/

def mapInsert (m : List (String × Nat)) (k : String) (v : Nat) :
    List (String × Nat) :=
  if m.any fun e => e.1 == k then
    m.map fun e => if e.1 == k then (k, v) else e
  else m ++ [(k, v)]

def mapLookup (m : List (String × Nat)) (k : String) : Option Nat :=
  (m.find? fun e => e.1 == k).map fun e => e.2

/-- Go `filepath.Base` restricted to slash paths. -/
def baseName (p : String) : String :=
  let parts := ((splitChar '/' p.data).map String.mk).filter fun s => !(s == "")
  match parts.getLast? with
  | some b => b
  | none => if strStartsWith p "/" then "/" else "."

/-- The index maps built by Go `AddRPMs`/`RemoveRPMs`:
`index[key(pkgs[i])] = i` for i ascending (later duplicates win). -/
def buildKeyIndex (key : Package → String) (pkgs : List Package) :
    List (String × Nat) :=
  pkgs.enum.foldl (fun m pr => mapInsert m (key pr.2) pr.1) []

/-- `index[pkgs[i].NEVRA()] = i`. -/
def buildNEVRAIndex (pkgs : List Package) : List (String × Nat) :=
  buildKeyIndex Package.NEVRA pkgs

/-- `nameIndex[filepath.Base(pkgs[i].Location)] = i`. -/
def buildNameIndex (pkgs : List Package) : List (String × Nat) :=
  buildKeyIndex (fun p => baseName p.location) pkgs

/-- The per-RPM insertion loop of Go `AddRPMs` (lines 64-73). -/
def addLoop (replaceExisting : Bool) :
    List Package → List (String × Nat) → List Package →
    Except String (List Package)
  | [], _, pkgs => .ok pkgs
  | p :: rest, index, pkgs =>
    match mapLookup index p.NEVRA with
    | some idx =>
      if !replaceExisting then
        .error ("package " ++ p.NEVRA ++ " already exists (use --replace-existing)")
      else addLoop replaceExisting rest index (pkgs.set idx p)
    | none =>
      addLoop replaceExisting rest (mapInsert index p.NEVRA pkgs.length) (pkgs ++ [p])

/-- Go `AddRPMs`, restricted to its package-set logic: duplicate detection
in the loaded metadata, then the insertion loop over the incoming
descriptors. -/
def AddRPMs (pkgs : List Package) (incoming : List Package)
    (replaceExisting : Bool) : Except String (List Package) :=
  if incoming.isEmpty then .error "no RPM paths provided"
  else
    let index := buildNEVRAIndex pkgs
    if index.length ≠ pkgs.length then
      .error "metadata contains duplicate NEVRA entries"
    else addLoop replaceExisting incoming index pkgs

/-! ## Remove transaction (src/unnamed/part_002, RemoveRPMs) -/

/-- The resolution loop of Go `RemoveRPMs` (lines 217-229): each identifier
must resolve in the chosen index; the first unresolved one is fatal. -/
def resolveIds (index nameIndex : List (String × Nat)) (byNEVRA : Bool) :
    List String → Except String (List Nat)
  | [] => .ok []
  | id :: rest =>
    match (if byNEVRA then mapLookup index id else mapLookup nameIndex id) with
    | none => .error ("package " ++ id ++ " not found")
    | some idx =>
      match resolveIds index nameIndex byNEVRA rest with
      | .error e => .error e
      | .ok l => .ok (idx :: l)

/-- The RPM deletion loop of Go `RemoveRPMs` (lines 241-247): failures are
fatal, and everything deleted so far stays deleted. -/
def deleteAll (canDelete : String → Bool) (st : Store) :
    List String → (Store × List Event) ⊕ (List Event × String)
  | [] => .inl (st, [])
  | p :: rest =>
    if canDelete p then
      match deleteAll canDelete (st.deleteFile p) rest with
      | .inl pr => .inl (pr.1, Event.deleteFile p :: pr.2)
      | .inr pr => .inr (Event.deleteFile p :: pr.1, pr.2)
    else .inr ([Event.deleteFailed p], "delete " ++ p ++ ": backend error")

/-- Go `RemoveRPMs`, after `loadPackages`: resolve identifiers, drop the
resolved descriptors, optionally delete their RPM files, and rewrite the
metadata (skipped under dry-run). -/
def RemoveRPMs (cfg : RepoCfg) (st : Store) (md : RepoMD)
    (pkgs : List Package) (checksumAlg : String) (identifiers : List String)
    (byNEVRA deleteFiles dryRun : Bool) (now : Int) : RunOut Store :=
  if identifiers.isEmpty then ⟨[], .error "no identifiers provided"⟩
  else
    match resolveIds (buildNEVRAIndex pkgs) (buildNameIndex pkgs) byNEVRA
        identifiers with
    | .error e => ⟨[], .error e⟩
    | .ok toDelete =>
      let kept := (pkgs.enum.filter fun pr => !(toDelete.contains pr.1)).map Prod.snd
      let deletePaths := (pkgs.enum.filter fun pr => toDelete.contains pr.1).map
        fun pr => pr.2.location
      let afterDeletes : (Store × List Event) ⊕ (List Event × String) :=
        if deleteFiles && !dryRun then deleteAll cfg.canDelete st deletePaths
        else .inl (st, [])
      match afterDeletes with
      | .inr pr => ⟨pr.1, .error pr.2⟩
      | .inl pr =>
        if dryRun then ⟨pr.2, .ok pr.1⟩
        else
          let w := writeMetadata cfg pr.1 md kept checksumAlg now
          ⟨pr.2 ++ w.events, w.out.map fun r => r.store⟩

/-! ## Validator core checks (src/unnamed/part_001, checkCollect) -/

/-- The size checks of `checkCollect` (lines 101-106): a recorded size of 0
is not checked. -/
def checkCoreEntrySizeErrs (core : CoreFile) (d : RepoData) : List String :=
  (if d.size ≠ 0 ∧ d.size ≠ core.size then
    ["core " ++ d.dtype ++ " size mismatch: repomd=" ++ itoa d.size ++
     " actual=" ++ itoa core.size]
   else []) ++
  (if d.openSize ≠ 0 ∧ d.openSize ≠ core.openSize then
    ["core " ++ d.dtype ++ " open-size mismatch: repomd=" ++ itoa d.openSize ++
     " actual=" ++ itoa core.openSize]
   else [])

/-- Per-entry verification in `checkCollect` (lines 92-107). -/
def checkCoreEntry (st : Store) (d : RepoData) : List String :=
  match ReadAndVerifyCore st d with
  | .error e => ["core " ++ d.dtype ++ ": " ++ e]
  | .ok core => checkCoreEntrySizeErrs core d

/-- `checkCoreEntry` over an optional entry (`nil` entries are skipped). -/
def checkOptEntry (st : Store) : Option RepoData → List String
  | none => []
  | some d => checkCoreEntry st d

/-- The error accumulation of `checkCollect` over the three core entries
(lines 81-107): missing-entry errors, then per-entry verification. -/
def checkCollectCoreErrs (st : Store) (md : RepoMD) : List String :=
  let g := GetCoreData md
  (match g.1 with
   | none => ["missing primary metadata in repomd.xml"]
   | some _ => []) ++
  (match g.2.1 with
   | none => ["missing filelists metadata in repomd.xml"]
   | some _ => []) ++
  (match g.2.2 with
   | none => ["missing other metadata in repomd.xml"]
   | some _ => []) ++
  checkOptEntry st g.1 ++ checkOptEntry st g.2.1 ++ checkOptEntry st g.2.2

/-! ## Helper lemmas: association-list maps -/

theorem mapLookup_nil (k : String) : mapLookup [] k = none := rfl

theorem mapLookup_cons (e : String × Nat) (rest : List (String × Nat))
    (k : String) :
    mapLookup (e :: rest) k =
      if e.1 = k then some e.2 else mapLookup rest k := by
  by_cases h : e.1 = k
  · rw [if_pos h]
    simp only [mapLookup]
    rw [List.find?_cons_of_pos _ (by simpa using h)]
    rfl
  · rw [if_neg h]
    simp only [mapLookup]
    rw [List.find?_cons_of_neg _ (by simpa using h)]

theorem anyKey_iff_mem (m : List (String × Nat)) (k : String) :
    (m.any fun e => e.1 == k) = true ↔ k ∈ m.map Prod.fst := by
  induction m with
  | nil => simp
  | cons e rest ih =>
    simp only [List.any_cons, List.map_cons, List.mem_cons, Bool.or_eq_true,
      beq_iff_eq, ih]
    tauto

theorem mapLookup_not_mem (m : List (String × Nat)) (k : String)
    (h : k ∉ m.map Prod.fst) : mapLookup m k = none := by
  induction m with
  | nil => rfl
  | cons e rest ih =>
    simp only [List.map_cons, List.mem_cons] at h
    push_neg at h
    rw [mapLookup_cons, if_neg (fun he => h.1 he.symm)]
    exact ih h.2

theorem mapLookup_replace_ne (m : List (String × Nat)) (k : String) (v : Nat)
    (k' : String) (h : k' ≠ k) :
    mapLookup (m.map fun e => if e.1 == k then (k, v) else e) k' =
      mapLookup m k' := by
  induction m with
  | nil => rfl
  | cons e rest ih =>
    simp only [List.map_cons]
    by_cases hek : e.1 = k
    · rw [if_pos (by simpa using hek), mapLookup_cons, mapLookup_cons]
      rw [if_neg (fun hkk => h hkk.symm), if_neg (fun he => h (hek ▸ he).symm)]
      exact ih
    · rw [if_neg (by simpa using hek), mapLookup_cons, mapLookup_cons]
      by_cases he : e.1 = k'
      · rw [if_pos he, if_pos he]
      · rw [if_neg he, if_neg he]
        exact ih

theorem mapLookup_replace_self (m : List (String × Nat)) (k : String) (v : Nat)
    (h : k ∈ m.map Prod.fst) :
    mapLookup (m.map fun e => if e.1 == k then (k, v) else e) k = some v := by
  induction m with
  | nil => simp at h
  | cons e rest ih =>
    simp only [List.map_cons]
    by_cases hek : e.1 = k
    · rw [if_pos (by simpa using hek), mapLookup_cons, if_pos rfl]
    · rw [if_neg (by simpa using hek), mapLookup_cons, if_neg hek]
      simp only [List.map_cons, List.mem_cons] at h
      rcases h with h | h
      · exact absurd h.symm hek
      · exact ih h

theorem mapLookup_append_single (m : List (String × Nat)) (k : String) (v : Nat)
    (k' : String) :
    mapLookup (m ++ [(k, v)]) k' =
      match mapLookup m k' with
      | some r => some r
      | none => if k' = k then some v else none := by
  induction m with
  | nil =>
    rw [List.nil_append, mapLookup_nil, mapLookup_cons, mapLookup_nil]
    by_cases h : k' = k
    · rw [if_pos (h ▸ rfl), if_pos h]
    · rw [if_neg (fun he => h he.symm), if_neg h]
  | cons e rest ih =>
    rw [List.cons_append, mapLookup_cons, mapLookup_cons]
    by_cases he : e.1 = k'
    · rw [if_pos he, if_pos he]
    · rw [if_neg he, if_neg he]
      exact ih

theorem mapLookup_insert (m : List (String × Nat)) (k : String) (v : Nat)
    (k' : String) :
    mapLookup (mapInsert m k v) k' =
      if k' = k then some v else mapLookup m k' := by
  by_cases hany : (m.any fun e => e.1 == k) = true
  · rw [mapInsert, if_pos hany]
    by_cases h : k' = k
    · subst h
      rw [if_pos rfl, mapLookup_replace_self m k' v ((anyKey_iff_mem m k').mp hany)]
    · rw [if_neg h, mapLookup_replace_ne m k v k' h]
  · rw [mapInsert, if_neg hany, mapLookup_append_single]
    have hnm : k ∉ m.map Prod.fst := fun hm => hany ((anyKey_iff_mem m k).mpr hm)
    by_cases h : k' = k
    · subst h
      rw [mapLookup_not_mem m k' hnm]
    · cases hl : mapLookup m k' <;> simp [h]

theorem mapInsert_keys (m : List (String × Nat)) (k : String) (v : Nat) :
    (mapInsert m k v).map Prod.fst =
      insertIfAbsent (m.map Prod.fst) k := by
  rw [mapInsert, insertIfAbsent]
  have hcont : (m.map Prod.fst).contains k = (m.any fun e => e.1 == k) := by
    induction m with
    | nil => rfl
    | cons e rest ih =>
      simp only [List.map_cons, List.contains_cons, List.any_cons, ih, beq_iff_eq]
      by_cases he : k = e.1
      · simp [he]
      · rw [show (k == e.1) = false from by simpa using he,
          show (e.1 == k) = false from by simpa using Ne.symm he]
  by_cases hany : (m.any fun e => e.1 == k) = true
  · rw [if_pos hany, if_pos (hcont ▸ hany), List.map_map]
    apply List.map_congr_left
    intro e _
    by_cases hek : e.1 = k
    · simp [if_pos (beq_iff_eq.mpr hek), hek]
    · simp [if_neg (by simpa using hek)]
  · rw [if_neg hany, if_neg (fun hc => hany (hcont ▸ hc)), List.map_append]
    rfl

/-! ## Helper lemmas: last-occurrence index, key sets, point updates -/

theorem lastIdxOf_eq_none (l : List String) (k : String) :
    lastIdxOf l k = none ↔ k ∉ l := by
  induction l with
  | nil => simp [lastIdxOf]
  | cons x xs ih =>
    simp only [lastIdxOf, List.mem_cons]
    cases h : lastIdxOf xs k with
    | some j =>
      have : k ∈ xs := by
        by_contra hk
        rw [ih.mpr hk] at h
        exact Option.noConfusion h
      simp [this]
    | none =>
      have hk : k ∉ xs := ih.mp h
      by_cases hx : x = k
      · simp [hx]
      · simp [hx, Ne.symm hx, hk]

theorem lastIdxOf_mem_spec (l : List String) (k : String) :
    ∀ j, lastIdxOf l k = some j → j < l.length ∧ l[j]? = some k := by
  induction l with
  | nil => intro j h; exact Option.noConfusion h
  | cons x xs ih =>
    intro j h
    rw [lastIdxOf] at h
    cases hin : lastIdxOf xs k with
    | some j' =>
      rw [hin] at h
      injection h with h
      subst h
      rcases ih j' hin with ⟨hlt, hget⟩
      exact ⟨by simpa using hlt, by simpa using hget⟩
    | none =>
      rw [hin] at h
      by_cases hx : x = k
      · rw [if_pos hx] at h
        injection h with h
        subst h
        simp [hx]
      · rw [if_neg hx] at h
        exact Option.noConfusion h

theorem lastIdxOf_of_nodup (l : List String) (k : String) (hn : l.Nodup) :
    ∀ i, l[i]? = some k → lastIdxOf l k = some i := by
  induction l with
  | nil => intro i h; simp at h
  | cons x xs ih =>
    intro i h
    match i with
    | 0 =>
      simp only [List.getElem?_cons_zero, Option.some.injEq] at h
      subst h
      have hx : x ∉ xs := (List.nodup_cons.mp hn).1
      rw [lastIdxOf, (lastIdxOf_eq_none xs x).mpr hx, if_pos rfl]
    | i + 1 =>
      simp only [List.getElem?_cons_succ] at h
      rw [lastIdxOf, ih (List.nodup_cons.mp hn).2 i h]

theorem foldl_insert_enumFrom_lookup (key : Package → String)
    (pkgs : List Package) :
    ∀ (n : Nat) (m : List (String × Nat)) (k : String),
      mapLookup ((List.enumFrom n pkgs).foldl
          (fun m pr => mapInsert m (key pr.2) pr.1) m) k =
        match lastIdxOf (pkgs.map key) k with
        | some j => some (n + j)
        | none => mapLookup m k := by
  induction pkgs with
  | nil => intro n m k; rfl
  | cons p rest ih =>
    intro n m k
    rw [show List.enumFrom n (p :: rest) = (n, p) :: List.enumFrom (n + 1) rest
      from rfl]
    rw [List.foldl_cons, ih (n + 1) (mapInsert m (key p) n) k]
    simp only [List.map_cons, lastIdxOf]
    cases h : lastIdxOf (rest.map key) k with
    | some j =>
      simp only [Option.some.injEq]
      omega
    | none =>
      rw [mapLookup_insert]
      by_cases hx : key p = k
      · rw [if_pos hx, if_pos (hx ▸ rfl)]
        simp
      · rw [if_neg hx, if_neg (fun hk => hx hk.symm)]

theorem buildKeyIndex_lookup (key : Package → String) (pkgs : List Package)
    (k : String) :
    mapLookup (buildKeyIndex key pkgs) k = lastIdxOf (pkgs.map key) k := by
  rw [buildKeyIndex, List.enum]
  rw [foldl_insert_enumFrom_lookup key pkgs 0 [] k]
  cases h : lastIdxOf (pkgs.map key) k with
  | some j => simp
  | none => rfl

theorem mem_insertIfAbsent (l : List String) (t x : String) :
    x ∈ insertIfAbsent l t ↔ x ∈ l ∨ x = t := by
  rw [insertIfAbsent]
  by_cases h : l.contains t
  · rw [if_pos h]
    have ht : t ∈ l := by simpa [List.contains] using h
    constructor
    · exact Or.inl
    · rintro (hx | rfl)
      · exact hx
      · exact ht
  · rw [if_neg h]
    simp

theorem nodup_insertIfAbsent (l : List String) (t : String) (h : l.Nodup) :
    (insertIfAbsent l t).Nodup := by
  rw [insertIfAbsent]
  by_cases hc : l.contains t
  · rwa [if_pos hc]
  · rw [if_neg hc]
    have ht : t ∉ l := by simpa [List.contains] using hc
    simp [List.nodup_append, h, ht]

theorem foldl_insertIfAbsent_nodup (L : List String) :
    ∀ acc : List String, acc.Nodup → (L.foldl insertIfAbsent acc).Nodup := by
  induction L with
  | nil => intro acc h; exact h
  | cons x rest ih =>
    intro acc h
    exact ih _ (nodup_insertIfAbsent acc x h)

theorem foldl_insertIfAbsent_mem (L : List String) :
    ∀ (acc : List String) (x : String),
      x ∈ L.foldl insertIfAbsent acc ↔ x ∈ acc ∨ x ∈ L := by
  induction L with
  | nil => intro acc x; simp
  | cons y rest ih =>
    intro acc x
    rw [List.foldl_cons, ih, mem_insertIfAbsent]
    simp only [List.mem_cons]
    tauto

theorem foldl_insertIfAbsent_length_le (L : List String) :
    ∀ acc : List String,
      (L.foldl insertIfAbsent acc).length ≤ acc.length + L.length := by
  induction L with
  | nil => intro acc; simp
  | cons x rest ih =>
    intro acc
    rw [List.foldl_cons]
    have h1 : (insertIfAbsent acc x).length ≤ acc.length + 1 := by
      rw [insertIfAbsent]
      split <;> simp
    calc (rest.foldl insertIfAbsent (insertIfAbsent acc x)).length
        ≤ (insertIfAbsent acc x).length + rest.length := ih _
      _ ≤ acc.length + 1 + rest.length := by omega
      _ = acc.length + (x :: rest).length := by simp; omega

theorem foldl_insertIfAbsent_length_eq (L : List String) :
    ∀ acc : List String,
      (L.foldl insertIfAbsent acc).length = acc.length + L.length ↔
        (L.Nodup ∧ ∀ x ∈ L, x ∉ acc) := by
  induction L with
  | nil => intro acc; simp
  | cons x rest ih =>
    intro acc
    rw [List.foldl_cons]
    by_cases hx : x ∈ acc
    · have h1 : insertIfAbsent acc x = acc := by
        rw [insertIfAbsent, if_pos (by simpa [List.contains] using hx)]
      rw [h1]
      have h2 : (rest.foldl insertIfAbsent acc).length ≤ acc.length + rest.length :=
        foldl_insertIfAbsent_length_le rest acc
      constructor
      · intro h
        exfalso
        simp only [List.length_cons] at h
        omega
      · rintro ⟨-, hnot⟩
        exact absurd hx (hnot x (List.mem_cons_self _ _))
    · have h1 : insertIfAbsent acc x = acc ++ [x] := by
        rw [insertIfAbsent, if_neg (by simpa [List.contains] using hx)]
      rw [h1]
      have h2 := ih (acc ++ [x])
      rw [show (acc ++ [x]).length = acc.length + 1 from by simp] at h2
      rw [show acc.length + (x :: rest).length = acc.length + 1 + rest.length from by
        simp; omega]
      rw [h2]
      constructor
      · rintro ⟨hnd, hnin⟩
        have hxr : x ∉ rest := fun hxr => (hnin x hxr) (by simp)
        refine ⟨List.nodup_cons.mpr ⟨hxr, hnd⟩, ?_⟩
        intro y hy
        rcases List.mem_cons.mp hy with rfl | hy'
        · exact hx
        · intro hyacc
          exact (hnin y hy') (by simp [hyacc])
      · rintro ⟨hnd, hnin⟩
        have hxr : x ∉ rest := (List.nodup_cons.mp hnd).1
        refine ⟨(List.nodup_cons.mp hnd).2, ?_⟩
        intro y hy hmem
        rcases List.mem_append.mp hmem with hyacc | hyx
        · exact (hnin y (List.mem_cons_of_mem _ hy)) hyacc
        · rw [List.mem_singleton] at hyx
          subst hyx
          exact hxr hy

theorem buildKeyIndex_keys (key : Package → String) (pkgs : List Package) :
    (buildKeyIndex key pkgs).map Prod.fst =
      (pkgs.map key).foldl insertIfAbsent [] := by
  suffices h : ∀ (ps : List Package) (n : Nat) (m : List (String × Nat)),
      (((List.enumFrom n ps).foldl (fun m pr => mapInsert m (key pr.2) pr.1) m).map
        Prod.fst) = (ps.map key).foldl insertIfAbsent (m.map Prod.fst) by
    exact h pkgs 0 []
  intro ps
  induction ps with
  | nil => intro n m; rfl
  | cons p rest ih =>
    intro n m
    rw [show List.enumFrom n (p :: rest) = (n, p) :: List.enumFrom (n + 1) rest
      from rfl]
    rw [List.foldl_cons, List.map_cons, List.foldl_cons, ih (n + 1),
      mapInsert_keys]

theorem updateAt_length {α : Type} (l : List α) :
    ∀ (i : Nat) (f : α → α), (updateAt l i f).length = l.length := by
  induction l with
  | nil => intro i f; rfl
  | cons x xs ih =>
    intro i f
    match i with
    | 0 => rfl
    | i + 1 => simp [updateAt, ih i f]

theorem getElem?_updateAt {α : Type} (l : List α) :
    ∀ (i : Nat) (f : α → α) (j : Nat),
      (updateAt l i f)[j]? = if i = j then l[j]?.map f else l[j]? := by
  induction l with
  | nil =>
    intro i f j
    simp [updateAt]
  | cons x xs ih =>
    intro i f j
    match i, j with
    | 0, 0 => simp [updateAt]
    | 0, j + 1 => simp [updateAt]
    | i + 1, 0 => simp [updateAt]
    | i + 1, j + 1 =>
      simp only [updateAt, List.getElem?_cons_succ, ih i f j]
      by_cases h : i = j
      · simp [h]
      · simp [h, fun hc => h (Nat.succ_injective hc)]

/-! ## Claim C7: duplicate-NEVRA policy of the add transaction -/

theorem buildKeyIndex_length_eq_iff (key : Package → String)
    (pkgs : List Package) :
    (buildKeyIndex key pkgs).length = pkgs.length ↔ (pkgs.map key).Nodup := by
  have hk := congrArg List.length (buildKeyIndex_keys key pkgs)
  rw [List.length_map] at hk
  rw [hk]
  have h := foldl_insertIfAbsent_length_eq (pkgs.map key) []
  simp only [List.length_nil, Nat.zero_add, List.not_mem_nil, not_false_iff,
    implies_true, and_true] at h
  rw [List.length_map] at h
  exact h

theorem set_append_singleton {α : Type} (l : List α) (a b : α) :
    (l ++ [a]).set l.length b = l ++ [b] := by
  induction l with
  | nil => rfl
  | cons x xs ih => simp [List.set, ih]

theorem mapLookup_buildNEVRAIndex_of_not_mem (pkgs : List Package) (k : String)
    (h : k ∉ pkgs.map Package.NEVRA) :
    mapLookup (buildNEVRAIndex pkgs) k = none := by
  rw [buildNEVRAIndex, buildKeyIndex_lookup]
  exact (lastIdxOf_eq_none _ _).mpr h

/-- Claim C7: in the add transaction, an incoming RPM whose NEVRA collides
with an existing descriptor (or with an earlier RPM of the same call) is a
duplicate error unless the replace policy is in effect, in which case the
existing descriptor is overwritten in place; duplicate NEVRAs already in
the loaded metadata abort the transaction before any input is processed. -/
theorem addRPMs_duplicate_policy :
    (∀ (pkgs incoming : List Package) (rep : Bool),
      ¬(pkgs.map Package.NEVRA).Nodup → incoming ≠ [] →
      AddRPMs pkgs incoming rep = .error "metadata contains duplicate NEVRA entries") ∧
    (∀ (pkgs : List Package) (p : Package) (rest : List Package),
      (pkgs.map Package.NEVRA).Nodup → p.NEVRA ∈ pkgs.map Package.NEVRA →
      AddRPMs pkgs (p :: rest) false =
        .error ("package " ++ p.NEVRA ++ " already exists (use --replace-existing)")) ∧
    (∀ (pkgs : List Package) (p : Package) (i : Nat) (hi : i < pkgs.length),
      (pkgs.map Package.NEVRA).Nodup → (pkgs.get ⟨i, hi⟩).NEVRA = p.NEVRA →
      AddRPMs pkgs [p] true = .ok (pkgs.set i p)) ∧
    (∀ (pkgs : List Package) (q q' : Package),
      (pkgs.map Package.NEVRA).Nodup → q.NEVRA ∉ pkgs.map Package.NEVRA →
      q'.NEVRA = q.NEVRA →
      AddRPMs pkgs [q, q'] false =
        .error ("package " ++ q'.NEVRA ++ " already exists (use --replace-existing)") ∧
      AddRPMs pkgs [q, q'] true = .ok (pkgs ++ [q'])) := by
  have hguard : ∀ pkgs : List Package, (pkgs.map Package.NEVRA).Nodup →
      ¬(buildNEVRAIndex pkgs).length ≠ pkgs.length := by
    intro pkgs h
    rw [not_not, buildNEVRAIndex]
    exact (buildKeyIndex_length_eq_iff Package.NEVRA pkgs).mpr h
  refine ⟨?_, ?_, ?_, ?_⟩
  · intro pkgs incoming rep hdup hne
    unfold AddRPMs
    rw [if_neg (by simpa [List.isEmpty_iff] using hne)]
    show (if (buildNEVRAIndex pkgs).length ≠ pkgs.length
        then Except.error "metadata contains duplicate NEVRA entries"
        else addLoop rep incoming (buildNEVRAIndex pkgs) pkgs) =
      Except.error "metadata contains duplicate NEVRA entries"
    have hcond : (buildNEVRAIndex pkgs).length ≠ pkgs.length := fun heq =>
      hdup ((buildKeyIndex_length_eq_iff Package.NEVRA pkgs).mp heq)
    rw [if_pos hcond]
  · intro pkgs p rest hnd hmem
    unfold AddRPMs
    rw [if_neg (by simp [List.isEmpty_iff]), if_neg (hguard pkgs hnd)]
    rw [addLoop, buildNEVRAIndex, buildKeyIndex_lookup]
    cases h : lastIdxOf (pkgs.map Package.NEVRA) p.NEVRA with
    | some j => rfl
    | none => exact absurd ((lastIdxOf_eq_none _ _).mp h) (by simpa using hmem)
  · intro pkgs p i hi hnd hkey
    unfold AddRPMs
    rw [if_neg (by simp [List.isEmpty_iff]), if_neg (hguard pkgs hnd)]
    rw [addLoop, buildNEVRAIndex, buildKeyIndex_lookup]
    have hget : (pkgs.map Package.NEVRA)[i]? = some p.NEVRA := by
      rw [List.getElem?_map, List.getElem?_eq_getElem hi]
      simpa using hkey
    rw [lastIdxOf_of_nodup _ _ hnd i hget]
    rfl
  · intro pkgs q q' hnd hmem hkey
    have hnone : lastIdxOf (pkgs.map Package.NEVRA) q.NEVRA = none :=
      (lastIdxOf_eq_none _ _).mpr hmem
    constructor
    · unfold AddRPMs
      rw [if_neg (by simp [List.isEmpty_iff]), if_neg (hguard pkgs hnd)]
      rw [addLoop, buildNEVRAIndex, buildKeyIndex_lookup, hnone]
      rw [addLoop, mapLookup_insert, if_pos hkey]
      rfl
    · unfold AddRPMs
      rw [if_neg (by simp [List.isEmpty_iff]), if_neg (hguard pkgs hnd)]
      rw [addLoop, buildNEVRAIndex, buildKeyIndex_lookup, hnone]
      rw [addLoop, mapLookup_insert, if_pos hkey]
      show Except.ok ((pkgs ++ [q]).set pkgs.length q') =
        (Except.ok (pkgs ++ [q']) : Except String (List Package))
      rw [set_append_singleton]

/-- A concrete descriptor template for witnesses and counterexamples. -/
def mkPkg (name version pkgID location : String) : Package :=
  { name := name, arch := "x86_64", epoch := 0, version := version,
    release := "1", summary := "", description := "", license := "",
    vendor := "", group := "", buildHost := "", sourceRPM := "", url := "",
    packager := "", timeBuild := 0, timeFile := 0, sizePackage := 0,
    sizeInstalled := 0, sizeArchive := 0, location := location,
    pkgID := pkgID, checksumType := "sha256", headerStart := 0,
    headerEnd := 0, provides := [], requires := [], conflicts := [],
    obsoletes := [], files := [], changelogs := [] }

/-- Witness for C7 at concrete inputs. -/
theorem addRPMs_duplicate_policy_witness :
    AddRPMs [mkPkg "a" "1" "p1" "a.rpm", mkPkg "a" "1" "p2" "a2.rpm"]
        [mkPkg "b" "1" "p3" "b.rpm"] false =
      .error "metadata contains duplicate NEVRA entries" ∧
    AddRPMs [mkPkg "a" "1" "p1" "a.rpm"] [mkPkg "a" "1" "p9" "a9.rpm"] false =
      .error ("package " ++ (mkPkg "a" "1" "p9" "a9.rpm").NEVRA ++
        " already exists (use --replace-existing)") ∧
    AddRPMs [mkPkg "a" "1" "p1" "a.rpm"] [mkPkg "a" "1" "p9" "a9.rpm"] true =
      .ok ([mkPkg "a" "1" "p1" "a.rpm"].set 0 (mkPkg "a" "1" "p9" "a9.rpm")) ∧
    AddRPMs [] [mkPkg "c" "1" "p4" "c.rpm", mkPkg "c" "1" "p5" "c5.rpm"] true =
      .ok [mkPkg "c" "1" "p5" "c5.rpm"] := by
  refine ⟨?_, ?_, ?_, ?_⟩
  · exact addRPMs_duplicate_policy.1 _ _ false (by decide) (by decide)
  · exact addRPMs_duplicate_policy.2.1 _ _ [] (by decide) (by decide)
  · exact addRPMs_duplicate_policy.2.2.1 _ _ 0 (by decide) (by decide) (by decide)
  · have h := (addRPMs_duplicate_policy.2.2.2 []
      (mkPkg "c" "1" "p4" "c.rpm") (mkPkg "c" "1" "p5" "c5.rpm")
      (by decide) (by decide) (by decide)).2
    simpa using h

/-! ## Claim C8: remove by unknown identifier -/

theorem resolveIds_error (index nameIndex : List (String × Nat))
    (byNEVRA : Bool) :
    ∀ ids : List String,
      (∃ id ∈ ids,
        (if byNEVRA then mapLookup index id else mapLookup nameIndex id) = none) →
      ∃ badId ∈ ids,
        (if byNEVRA then mapLookup index badId else mapLookup nameIndex badId) = none ∧
        resolveIds index nameIndex byNEVRA ids =
          .error ("package " ++ badId ++ " not found") := by
  intro ids
  induction ids with
  | nil => rintro ⟨id, hid, -⟩; simp at hid
  | cons id rest ih =>
    rintro ⟨id', hid', hnone⟩
    cases hl : (if byNEVRA then mapLookup index id else mapLookup nameIndex id) with
    | none =>
      refine ⟨id, List.mem_cons_self _ _, hl, ?_⟩
      rw [resolveIds, hl]
    | some idx =>
      have hrest : ∃ i ∈ rest,
          (if byNEVRA then mapLookup index i else mapLookup nameIndex i) = none := by
        rcases List.mem_cons.mp hid' with rfl | hmem
        · rw [hl] at hnone
          exact Option.noConfusion hnone
        · exact ⟨id', hmem, hnone⟩
      rcases ih hrest with ⟨badId, hbadMem, hbadNone, hbadEq⟩
      refine ⟨badId, List.mem_cons_of_mem _ hbadMem, hbadNone, ?_⟩
      rw [resolveIds, hl, hbadEq]

/-- Claim C8: a remove transaction whose identifier list contains one that
resolves against neither the NEVRA index (under by-NEVRA) nor the
basename-of-location index fails with a not-found error, performs no
backend operation (no metadata write, no RPM delete), and leaves the
repository unchanged. -/
theorem removeRPMs_not_found (cfg : RepoCfg) (st : Store) (md : RepoMD)
    (pkgs : List Package) (alg : String) (identifiers : List String)
    (byNEVRA deleteFiles dryRun : Bool) (now : Int)
    (hbad : ∃ id ∈ identifiers,
      if byNEVRA then id ∉ pkgs.map Package.NEVRA
      else id ∉ pkgs.map fun p => baseName p.location) :
    ∃ badId ∈ identifiers,
      (if byNEVRA then badId ∉ pkgs.map Package.NEVRA
       else badId ∉ pkgs.map fun p => baseName p.location) ∧
      RemoveRPMs cfg st md pkgs alg identifiers byNEVRA deleteFiles dryRun now =
        ⟨[], .error ("package " ++ badId ++ " not found")⟩ := by
  have hlookup : ∀ id : String,
      (if byNEVRA then mapLookup (buildNEVRAIndex pkgs) id
       else mapLookup (buildNameIndex pkgs) id) = none ↔
      (if byNEVRA then id ∉ pkgs.map Package.NEVRA
       else id ∉ pkgs.map fun p => baseName p.location) := by
    intro id
    cases byNEVRA with
    | true =>
      rw [if_pos (rfl : true = true), if_pos (rfl : true = true)]
      rw [buildNEVRAIndex, buildKeyIndex_lookup]
      exact lastIdxOf_eq_none _ _
    | false =>
      have hf : ¬(false = true) := by decide
      rw [if_neg hf, if_neg hf]
      rw [buildNameIndex, buildKeyIndex_lookup]
      exact lastIdxOf_eq_none _ _
  have hbad' : ∃ id ∈ identifiers,
      (if byNEVRA then mapLookup (buildNEVRAIndex pkgs) id
       else mapLookup (buildNameIndex pkgs) id) = none := by
    rcases hbad with ⟨id, hmem, hnm⟩
    exact ⟨id, hmem, (hlookup id).mpr hnm⟩
  rcases resolveIds_error (buildNEVRAIndex pkgs) (buildNameIndex pkgs) byNEVRA
    identifiers hbad' with ⟨badId, hmem, hnone, heq⟩
  refine ⟨badId, hmem, (hlookup badId).mp hnone, ?_⟩
  have hne : identifiers ≠ [] := by
    rintro rfl
    simp at hmem
  unfold RemoveRPMs
  rw [if_neg (by simpa [List.isEmpty_iff] using hne), heq]

/-- A transaction configuration whose backend has no conditional-check
implementation and never fails deletes. -/
def cfgTrue : RepoCfg :=
  { allowUnknown := true, validator := none, canDelete := fun _ => true }

/-- Witness for C8 at concrete inputs. -/
theorem removeRPMs_not_found_witness :
    ∃ badId ∈ ["nosuch.rpm"],
      (if false then badId ∉ [mkPkg "a" "1" "p1" "a.rpm"].map Package.NEVRA
       else badId ∉ [mkPkg "a" "1" "p1" "a.rpm"].map fun p => baseName p.location) ∧
      RemoveRPMs cfgTrue ⟨[]⟩ ⟨"", "", []⟩ [mkPkg "a" "1" "p1" "a.rpm"] "sha256"
          ["nosuch.rpm"] false false false 0 =
        ⟨[], .error ("package " ++ badId ++ " not found")⟩ :=
  removeRPMs_not_found cfgTrue ⟨[]⟩ ⟨"", "", []⟩ [mkPkg "a" "1" "p1" "a.rpm"]
    "sha256" ["nosuch.rpm"] false false false 0
    ⟨"nosuch.rpm", by decide, by decide⟩

/-! ## Claim C3: stale-token conflict on the conditional rewrite -/

theorem strStartsWith_append_of (a b p : String)
    (h : strStartsWith a p = true) : strStartsWith (a ++ b) p = true := by
  rw [strStartsWith] at h ⊢
  rw [List.isPrefixOf_iff_prefix] at h ⊢
  rw [String.data_append]
  exact h.trans (List.prefix_append _ _)

theorem checkRepomdUnchanged_conflict (b : S3State) (etagRaw : String)
    (hcached : b.repomdETag ≠ "") (hcond : b.disableETag = false)
    (hdiff : trimQuotes etagRaw ≠ b.repomdETag) :
    CheckRepomdUnchanged b (.ok etagRaw) =
      .error ("conflict: repomd.xml changed since read (etag " ++
        b.repomdETag ++ " -> " ++ trimQuotes etagRaw ++ ")") := by
  rw [CheckRepomdUnchanged]
  rw [if_neg (by simp [hcond, hcached])]
  rw [if_pos hdiff]

/-- Claim C3: when the object-store backend holds a cached manifest token,
conditional mode is enabled, and the manifest's current token differs from
the cached one, a rewrite fails with a distinguished conflict error after
exactly one conditional check and before any write — no core file or
manifest write happens and no retry is made. -/
theorem writeMetadata_conflict_aborts (b : S3State) (etagRaw : String)
    (cfg : RepoCfg) (st : Store) (md : RepoMD) (pkgs : List Package)
    (alg : String) (now : Int)
    (hcached : b.repomdETag ≠ "") (hcond : b.disableETag = false)
    (hdiff : trimQuotes etagRaw ≠ b.repomdETag)
    (hval : cfg.validator = some (CheckRepomdUnchanged b (.ok etagRaw))) :
    ∃ msg,
      writeMetadata cfg st md pkgs alg now = ⟨[Event.checkManifest], .error msg⟩ ∧
      isConflictErr msg = true := by
  have hchk := checkRepomdUnchanged_conflict b etagRaw hcached hcond hdiff
  refine ⟨"conflict: repomd.xml changed since read (etag " ++
    b.repomdETag ++ " -> " ++ trimQuotes etagRaw ++ ")", ?_, ?_⟩
  · rw [writeMetadata, hval, hchk]
  · apply strStartsWith_append_of
    apply strStartsWith_append_of
    apply strStartsWith_append_of
    apply strStartsWith_append_of
    decide

/-- Witness for C3 at concrete inputs. -/
theorem writeMetadata_conflict_aborts_witness :
    ∃ msg,
      writeMetadata
          { allowUnknown := true,
            validator := some (CheckRepomdUnchanged
              { repomdETag := "tok1", disableETag := false } (.ok "\"tok2\"")),
            canDelete := fun _ => true }
          ⟨[]⟩ ⟨"", "", []⟩ [] "sha256" 0 =
        ⟨[Event.checkManifest], .error msg⟩ ∧
      isConflictErr msg = true :=
  writeMetadata_conflict_aborts
    { repomdETag := "tok1", disableETag := false } "\"tok2\""
    { allowUnknown := true,
      validator := some (CheckRepomdUnchanged
        { repomdETag := "tok1", disableETag := false } (.ok "\"tok2\"")),
      canDelete := fun _ => true }
    ⟨[]⟩ ⟨"", "", []⟩ [] "sha256" 0
    (by decide) rfl (by decide) rfl

/-! ## Claim C1: write ordering within rewrites and initialisation -/

theorem normalizeChecksum_supported (alg : String) :
    normalizeChecksum alg = "sha256" ∨ normalizeChecksum alg = "sha512" := by
  unfold normalizeChecksum
  split
  · exact Or.inl rfl
  · exact Or.inr rfl
  · exact Or.inl rfl

theorem buildCore_ok (pkgs : List Package) (alg : String) (now : Int)
    (h : alg = "sha256" ∨ alg = "sha512") :
    ∃ cfs : List CoreFile,
      BuildCoreFilesFromPackages pkgs alg now = .ok cfs ∧
      cfs.map (fun cf => cf.ctype) = ["primary", "filelists", "other"] := by
  rcases h with rfl | rfl
  · exact ⟨_, by rfl, by rfl⟩
  · exact ⟨_, by rfl, by rfl⟩

theorem gcFold_events (canDelete : String → Bool) (referenced : List String) :
    ∀ (files : List String) (acc : Store × List Event × List String),
      ∃ extra,
        (files.foldl (gcStep canDelete referenced) acc).2.1 = acc.2.1 ++ extra ∧
        ∀ e ∈ extra,
          (∃ p, e = Event.deleteFile p) ∨ ∃ p, e = Event.deleteFailed p := by
  intro files
  induction files with
  | nil => intro acc; exact ⟨[], by simp, by simp⟩
  | cons f rest ih =>
    intro acc
    rw [List.foldl_cons, gcStep]
    by_cases h1 : referenced.contains f
    · rw [if_pos h1]
      exact ih acc
    · rw [if_neg h1]
      by_cases h2 : strStartsWith f "repodata/.tmp" = true
      · rw [if_pos h2]
        exact ih acc
      · rw [if_neg h2]
        by_cases h3 : canDelete f = true
        · rw [if_pos h3]
          rcases ih (acc.1.deleteFile f, acc.2.1 ++ [Event.deleteFile f], acc.2.2)
            with ⟨extra, hev, hall⟩
          refine ⟨Event.deleteFile f :: extra, ?_, ?_⟩
          · rw [hev]
            simp
          · intro e he
            rcases List.mem_cons.mp he with rfl | he'
            · exact Or.inl ⟨f, rfl⟩
            · exact hall e he'
        · rw [if_neg h3]
          rcases ih (acc.1, acc.2.1 ++ [Event.deleteFailed f],
            acc.2.2 ++ ["warn: delete " ++ f]) with ⟨extra, hev, hall⟩
          refine ⟨Event.deleteFailed f :: extra, ?_, ?_⟩
          · rw [hev]
            simp
          · intro e he
            rcases List.mem_cons.mp he with rfl | he'
            · exact Or.inr ⟨f, rfl⟩
            · exact hall e he'

theorem cleanupOldMetadata_events (canDelete : String → Bool) (st : Store)
    (md : RepoMD) :
    ∃ gc, (cleanupOldMetadata canDelete st md).2.1 = Event.listRepodata :: gc ∧
      ∀ e ∈ gc,
        (∃ p, e = Event.deleteFile p) ∨ ∃ p, e = Event.deleteFailed p := by
  rcases gcFold_events canDelete (referencedPaths md) st.listRepodata
    (st, [Event.listRepodata], []) with ⟨extra, hev, hall⟩
  exact ⟨extra, by simpa [cleanupOldMetadata] using hev, hall⟩

theorem supportedChecksum_cases (a : String) (h : SupportedChecksum a = true) :
    toLowerStr a = "sha256" ∨ toLowerStr a = "sha512" := by
  rw [SupportedChecksum] at h
  rcases Bool.or_eq_true_iff.mp h with h' | h'
  · exact Or.inl (by simpa using h')
  · exact Or.inr (by simpa using h')

theorem computeChecksum_ok (data : Bytes) (a : String)
    (h : SupportedChecksum a = true) :
    ComputeChecksum data a = .ok (digestHex (toLowerStr a) data) := by
  rw [ComputeChecksum]
  rcases supportedChecksum_cases a h with h' | h' <;> (rw [h']; rfl)

/-- The bundle `coreFilePayload` produces for one payload under a
supported algorithm. -/
def coreFileOf (a : String) (now : Int) (pr : String × Bytes) : CoreFile :=
  { ctype := pr.1,
    path := "repodata/" ++ digestHex (toLowerStr a) (gzipBytes pr.2) ++
      "-" ++ pr.1 ++ ".xml.gz",
    compressed := gzipBytes pr.2, uncompressed := pr.2,
    checksum := digestHex (toLowerStr a) (gzipBytes pr.2),
    openChecksum := digestHex (toLowerStr a) pr.2,
    size := ((gzipBytes pr.2).length : Int),
    openSize := (pr.2.length : Int), timestamp := now }

theorem coreFilePayload_eq (a : String) (now : Int) (pr : String × Bytes)
    (h : SupportedChecksum a = true) :
    coreFilePayload a now pr = .ok (coreFileOf a now pr) := by
  rw [coreFilePayload, computeChecksum_ok _ _ h, computeChecksum_ok _ _ h]
  rfl

theorem mapM_coreFilePayload_eq (a : String) (now : Int)
    (h : SupportedChecksum a = true) :
    ∀ payloads : List (String × Bytes),
      payloads.mapM (coreFilePayload a now) =
        .ok (payloads.map (coreFileOf a now)) := by
  intro payloads
  induction payloads with
  | nil => rfl
  | cons p rest ih =>
    rw [List.mapM_cons, coreFilePayload_eq a now p h, ih]
    rfl

theorem mapM_coreFilePayload_ok (a : String) (now : Int)
    (h : SupportedChecksum a = true) :
    ∀ payloads : List (String × Bytes),
      ∃ cfs, payloads.mapM (coreFilePayload a now) = .ok cfs ∧
        cfs.map (fun cf => cf.ctype) = payloads.map Prod.fst := by
  intro payloads
  refine ⟨_, mapM_coreFilePayload_eq a now h payloads, ?_⟩
  rw [List.map_map]
  apply List.map_congr_left
  intro pr _
  rfl

theorem buildEmpty_types (alg : String) (now : Int)
    (built : List CoreFile × RepoMD)
    (hb : BuildEmptyCoreFiles alg now = .ok built) :
    built.1.map (fun cf => cf.ctype) = ["primary", "filelists", "other"] := by
  rw [BuildEmptyCoreFiles] at hb
  by_cases hs : (!SupportedChecksum (toLowerStr alg)) = true
  · rw [if_pos hs] at hb
    exact Except.noConfusion hb
  · rw [if_neg hs] at hb
    have hsup : SupportedChecksum (toLowerStr alg) = true := by
      simpa using hs
    rcases mapM_coreFilePayload_ok (toLowerStr alg) now hsup
      [("primary", primaryDocBytes
         { xmlns := CommonNamespace, xmlnsRpm := RpmNamespace, count := 0,
           packages := [] }),
       ("filelists", filelistsDocBytes
         { xmlns := FilelistsNamespace, count := 0, packages := [] }),
       ("other", otherDocBytes
         { xmlns := OtherNamespace, count := 0, packages := [] })]
      with ⟨cfs, hok, hty⟩
    simp only [buildCoreFromPayloads, hok] at hb
    injection hb with hb
    rw [← hb]
    simpa using hty

/-- Claim C1: in every metadata rewrite, the three core payload files are
written strictly before the manifest `repodata/repomd.xml`, and the
garbage-collection pass (the `repodata/` listing and its deletes) runs
strictly after the manifest write; repository initialisation likewise
writes all three core files strictly before the manifest (and performs no
garbage collection at all). -/
theorem rewrite_and_init_write_order :
    (∀ (cfg : RepoCfg) (st : Store) (md : RepoMD) (pkgs : List Package)
        (alg : String) (now : Int) (r : RewriteResult),
      (writeMetadata cfg st md pkgs alg now).out = .ok r →
      ∃ (pre : List Event) (cfs : List CoreFile) (gc : List Event),
        BuildCoreFilesFromPackages pkgs (normalizeChecksum alg) now = .ok cfs ∧
        cfs.map (fun cf => cf.ctype) = ["primary", "filelists", "other"] ∧
        (writeMetadata cfg st md pkgs alg now).events =
          pre ++ cfs.map (fun cf => Event.writeFile cf.path) ++
            [Event.writeFile "repodata/repomd.xml"] ++ Event.listRepodata :: gc ∧
        (∀ e ∈ pre, e = Event.checkManifest) ∧
        (∀ e ∈ gc,
          (∃ p, e = Event.deleteFile p) ∨ ∃ p, e = Event.deleteFailed p)) ∧
    (∀ (st : Store) (alg : String) (force signRepodata : Bool) (now : Int)
        (st' : Store),
      (InitRepo st alg force signRepodata now).out = .ok st' →
      ∃ (built : List CoreFile × RepoMD),
        BuildEmptyCoreFiles alg now = .ok built ∧
        built.1.map (fun cf => cf.ctype) = ["primary", "filelists", "other"] ∧
        (InitRepo st alg force signRepodata now).events =
          Event.existsQuery "repodata/repomd.xml" ::
            (built.1.map fun cf => Event.writeFile cf.path) ++
            [Event.writeFile "repodata/repomd.xml"] ++
            (if signRepodata then [Event.writeFile "repodata/repomd.xml.asc"]
             else [])) := by
  constructor
  · intro cfg st md pkgs alg now r hok
    rcases buildCore_ok pkgs (normalizeChecksum alg) now
      (normalizeChecksum_supported alg) with ⟨cfs, hb, hty⟩
    match hv : cfg.validator with
    | some (.error e) =>
      rw [writeMetadata, hv] at hok
      exact Except.noConfusion hok
    | some (.ok u) =>
      rcases cleanupOldMetadata_events cfg.canDelete
        ((cfs.foldl (fun acc cf => acc.writeFile cf.path cf.compressed)
          st).writeFile "repodata/repomd.xml"
            (MarshalRepoMD (assembleRepoMD md cfs (normalizeChecksum alg) now
              cfg.allowUnknown).1))
        (assembleRepoMD md cfs (normalizeChecksum alg) now cfg.allowUnknown).1
        with ⟨gc, hgc, hall⟩
      refine ⟨[Event.checkManifest], cfs, gc, hb, hty, ?_, by simp, hall⟩
      cases u
      rw [writeMetadata, hv]
      simp only [hb, hgc]
    | none =>
      rcases cleanupOldMetadata_events cfg.canDelete
        ((cfs.foldl (fun acc cf => acc.writeFile cf.path cf.compressed)
          st).writeFile "repodata/repomd.xml"
            (MarshalRepoMD (assembleRepoMD md cfs (normalizeChecksum alg) now
              cfg.allowUnknown).1))
        (assembleRepoMD md cfs (normalizeChecksum alg) now cfg.allowUnknown).1
        with ⟨gc, hgc, hall⟩
      refine ⟨[], cfs, gc, hb, hty, ?_, by simp, hall⟩
      rw [writeMetadata, hv]
      simp only [hb, hgc]
  · intro st alg force signRepodata now st' hok
    match hb : BuildEmptyCoreFiles alg now with
    | .error e =>
      rw [InitRepo] at hok
      by_cases hex : (st.pathExists "repodata/repomd.xml" && !force) = true
      · rw [if_pos hex] at hok
        exact Except.noConfusion hok
      · rw [if_neg hex, hb] at hok
        exact Except.noConfusion hok
    | .ok built =>
      refine ⟨built, rfl, buildEmpty_types alg now built hb, ?_⟩
      rw [InitRepo] at hok ⊢
      by_cases hex : (st.pathExists "repodata/repomd.xml" && !force) = true
      · rw [if_pos hex] at hok
        exact Except.noConfusion hok
      · rw [if_neg hex, hb] at hok ⊢
        cases hsign : signRepodata <;> simp [hsign]

/-- Witness for C1 at concrete inputs. -/
theorem rewrite_and_init_write_order_witness :
    (∃ (pre : List Event) (cfs : List CoreFile) (gc : List Event),
      BuildCoreFilesFromPackages [] (normalizeChecksum "sha256") 0 = .ok cfs ∧
      cfs.map (fun cf => cf.ctype) = ["primary", "filelists", "other"] ∧
      (writeMetadata cfgTrue ⟨[]⟩ ⟨"", "", []⟩ [] "sha256" 0).events =
        pre ++ cfs.map (fun cf => Event.writeFile cf.path) ++
          [Event.writeFile "repodata/repomd.xml"] ++ Event.listRepodata :: gc ∧
      (∀ e ∈ pre, e = Event.checkManifest) ∧
      (∀ e ∈ gc,
        (∃ p, e = Event.deleteFile p) ∨ ∃ p, e = Event.deleteFailed p)) ∧
    (∃ built : List CoreFile × RepoMD,
      BuildEmptyCoreFiles "sha256" 0 = .ok built ∧
      built.1.map (fun cf => cf.ctype) = ["primary", "filelists", "other"] ∧
      (InitRepo ⟨[]⟩ "sha256" false false 0).events =
        Event.existsQuery "repodata/repomd.xml" ::
          (built.1.map fun cf => Event.writeFile cf.path) ++
          [Event.writeFile "repodata/repomd.xml"] ++
          (if false then [Event.writeFile "repodata/repomd.xml.asc"]
           else [])) := by
  constructor
  · exact rewrite_and_init_write_order.1 cfgTrue ⟨[]⟩ ⟨"", "", []⟩ [] "sha256" 0
      _ (by rfl)
  · exact rewrite_and_init_write_order.2 ⟨[]⟩ "sha256" false false 0 _ (by rfl)

/-! ## Claim C2: garbage collection deletes exactly the unreferenced files -/

theorem read_deleteFile (s : Store) (q p : String) :
    (s.deleteFile q).read p = if p = q then none else s.read p := by
  rcases s with ⟨files⟩
  induction files with
  | nil =>
    by_cases h : p = q <;> simp [Store.deleteFile, Store.read, h]
  | cons e rest ih =>
    simp only [Store.deleteFile, List.filter_cons]
    by_cases heq : e.1 = q
    · rw [show (!(e.1 == q)) = false from by simp [heq]]
      simp only [Bool.false_eq_true, if_false]
      by_cases h : p = q
      · rw [if_pos h]
        have := ih
        simp only [Store.deleteFile] at this
        rw [this, if_pos h]
      · rw [if_neg h]
        have := ih
        simp only [Store.deleteFile] at this
        rw [this, if_neg h]
        have hep : e.1 ≠ p := fun hc => h ((heq ▸ hc).symm)
        simp only [Store.read, List.find?]
        rw [show (e.1 == p) = false from by simpa using hep]
    · rw [show (!(e.1 == q)) = true from by simp [heq]]
      simp only [if_true]
      by_cases hep : e.1 = p
      · have hpq : ¬p = q := fun hpq => heq (hep.trans hpq)
        simp [Store.read, List.find?, beq_iff_eq, hep, hpq]
      · simp only [Store.read, List.find?]
        rw [show (e.1 == p) = false from by simpa using hep]
        have := ih
        simp only [Store.deleteFile, Store.read] at this
        exact this

/-- The delete condition of one GC iteration. -/
def gcDeletes (canDelete : String → Bool) (referenced : List String)
    (p : String) : Bool :=
  !referenced.contains p && !strStartsWith p "repodata/.tmp" && canDelete p

theorem gcStep_store (canDelete : String → Bool) (referenced : List String)
    (acc : Store × List Event × List String) (f : String) :
    (gcStep canDelete referenced acc f).1 =
      if gcDeletes canDelete referenced f then acc.1.deleteFile f else acc.1 := by
  by_cases h1 : f ∈ referenced
  · simp [gcStep, gcDeletes, h1]
  · by_cases h2 : strStartsWith f "repodata/.tmp" = true
    · simp [gcStep, gcDeletes, h1, h2]
    · by_cases h3 : canDelete f = true
      · simp [gcStep, gcDeletes, h1, h2, h3]
      · simp [gcStep, gcDeletes, h1, h2, h3]

theorem gcFold_read (canDelete : String → Bool) (referenced : List String)
    (files : List String) :
    ∀ (acc : Store × List Event × List String) (p : String),
      (files.foldl (gcStep canDelete referenced) acc).1.read p =
        if p ∈ files ∧ gcDeletes canDelete referenced p = true then none
        else acc.1.read p := by
  induction files with
  | nil =>
    intro acc p
    simp
  | cons f rest ih =>
    intro acc p
    rw [List.foldl_cons, ih]
    by_cases hmem : p ∈ rest ∧ gcDeletes canDelete referenced p = true
    · rw [if_pos hmem, if_pos ⟨List.mem_cons_of_mem _ hmem.1, hmem.2⟩]
    · rw [if_neg hmem, gcStep_store]
      by_cases hpf : p = f
      · subst hpf
        by_cases hd : gcDeletes canDelete referenced p = true
        · rw [if_pos hd, read_deleteFile, if_pos rfl,
            if_pos ⟨List.mem_cons_self _ _, hd⟩]
        · rw [if_neg hd, if_neg (fun hc => hd hc.2)]
      · have hcond : ¬(p ∈ f :: rest ∧ gcDeletes canDelete referenced p = true) := by
          rintro ⟨hin, hd⟩
          rcases List.mem_cons.mp hin with rfl | hin'
          · exact hpf rfl
          · exact hmem ⟨hin', hd⟩
        rw [if_neg hcond]
        by_cases hd : gcDeletes canDelete referenced f = true
        · rw [if_pos hd, read_deleteFile, if_neg hpf]
        · rw [if_neg hd]

theorem gcFold_warnings_mono (canDelete : String → Bool)
    (referenced : List String) (files : List String) :
    ∀ (acc : Store × List Event × List String) (w : String),
      w ∈ acc.2.2 → w ∈ (files.foldl (gcStep canDelete referenced) acc).2.2 := by
  induction files with
  | nil => intro acc w h; exact h
  | cons f rest ih =>
    intro acc w h
    rw [List.foldl_cons]
    apply ih
    rw [gcStep]
    by_cases h1 : referenced.contains f
    · rwa [if_pos h1]
    · rw [if_neg h1]
      by_cases h2 : strStartsWith f "repodata/.tmp" = true
      · rwa [if_pos h2]
      · rw [if_neg h2]
        by_cases h3 : canDelete f = true
        · rwa [if_pos h3]
        · rw [if_neg h3]
          simp only [List.mem_append]
          exact Or.inl h

theorem gcFold_warn_of_failed (canDelete : String → Bool)
    (referenced : List String) (files : List String) :
    ∀ (acc : Store × List Event × List String) (p : String), p ∈ files →
      referenced.contains p = false →
      strStartsWith p "repodata/.tmp" = false → canDelete p = false →
      ("warn: delete " ++ p) ∈ (files.foldl (gcStep canDelete referenced) acc).2.2 := by
  induction files with
  | nil => intro acc p h; simp at h
  | cons f rest ih =>
    intro acc p hmem h1 h2 h3
    rw [List.foldl_cons]
    rcases List.mem_cons.mp hmem with rfl | hmem'
    · apply gcFold_warnings_mono
      have h1' : p ∉ referenced := by simpa using h1
      have hstep : (gcStep canDelete referenced acc p).2.2 =
          acc.2.2 ++ ["warn: delete " ++ p] := by
        simp [gcStep, h1', h2, h3]
      rw [hstep]
      simp
    · exact ih _ p hmem' h1 h2 h3

theorem referenced_not_contains (md : RepoMD) (p : String) :
    (referencedPaths md).contains p = false ↔
      p ≠ "repodata/repomd.xml" ∧ p ≠ "repodata/repomd.xml.asc" ∧
      p ∉ md.data.map fun d => d.location.href := by
  have hiff : (referencedPaths md).contains p = false ↔ p ∉ referencedPaths md := by
    rw [← Bool.not_eq_true]
    constructor
    · intro h hmem
      exact h (by simpa [List.contains] using hmem)
    · intro h hc
      exact h (by simpa [List.contains] using hc)
  rw [hiff, referencedPaths]
  simp only [List.mem_append, List.mem_cons, List.not_mem_nil, or_false, not_or]
  tauto

/-- Claim C2: the garbage-collection pass deletes exactly those `repodata/`
entries that are neither the manifest, nor its signature, nor the href of
any data entry of the new manifest, nor under the staging prefix
`repodata/.tmp` (and whose delete succeeds); a failed delete of such a file
only produces a warning; and a rewrite that passes the conditional check
succeeds regardless of which deletes fail. -/
theorem gc_deletes_exactly_unreferenced :
    (∀ (canDelete : String → Bool) (st : Store) (md : RepoMD) (p : String),
      (cleanupOldMetadata canDelete st md).1.read p =
        if p ∈ st.listRepodata ∧ p ≠ "repodata/repomd.xml" ∧
            p ≠ "repodata/repomd.xml.asc" ∧
            (p ∉ md.data.map fun d => d.location.href) ∧
            strStartsWith p "repodata/.tmp" = false ∧ canDelete p = true
        then none else st.read p) ∧
    (∀ (canDelete : String → Bool) (st : Store) (md : RepoMD) (p : String),
      p ∈ st.listRepodata → p ≠ "repodata/repomd.xml" →
      p ≠ "repodata/repomd.xml.asc" →
      (p ∉ md.data.map fun d => d.location.href) →
      strStartsWith p "repodata/.tmp" = false → canDelete p = false →
      ("warn: delete " ++ p) ∈ (cleanupOldMetadata canDelete st md).2.2) ∧
    (∀ (cfg : RepoCfg) (st : Store) (md : RepoMD) (pkgs : List Package)
        (alg : String) (now : Int),
      (cfg.validator = none ∨ cfg.validator = some (.ok ())) →
      (writeMetadata cfg st md pkgs alg now).out.isOk = true) := by
  have hcond : ∀ (canDelete : String → Bool) (md : RepoMD) (p : String),
      gcDeletes canDelete (referencedPaths md) p = true ↔
        (p ≠ "repodata/repomd.xml" ∧ p ≠ "repodata/repomd.xml.asc" ∧
         (p ∉ md.data.map fun d => d.location.href) ∧
         strStartsWith p "repodata/.tmp" = false ∧ canDelete p = true) := by
    intro canDelete md p
    rw [gcDeletes]
    simp only [Bool.and_eq_true, Bool.not_eq_true']
    rw [referenced_not_contains]
    tauto
  refine ⟨?_, ?_, ?_⟩
  · intro canDelete st md p
    have hiff : (p ∈ st.listRepodata ∧
        gcDeletes canDelete (referencedPaths md) p = true) ↔
        (p ∈ st.listRepodata ∧ p ≠ "repodata/repomd.xml" ∧
         p ≠ "repodata/repomd.xml.asc" ∧
         (p ∉ md.data.map fun d => d.location.href) ∧
         strStartsWith p "repodata/.tmp" = false ∧ canDelete p = true) :=
      and_congr_right fun _ => hcond canDelete md p
    rw [cleanupOldMetadata, gcFold_read]
    by_cases h : p ∈ st.listRepodata ∧
        gcDeletes canDelete (referencedPaths md) p = true
    · rw [if_pos h, if_pos (hiff.mp h)]
    · rw [if_neg h, if_neg (fun hc => h (hiff.mpr hc))]
  · intro canDelete st md p hmem h1 h2 h3 h4 h5
    rw [cleanupOldMetadata]
    exact gcFold_warn_of_failed canDelete (referencedPaths md) st.listRepodata
      _ p hmem ((referenced_not_contains md p).mpr ⟨h1, h2, h3⟩) h4 h5
  · intro cfg st md pkgs alg now hval
    rcases buildCore_ok pkgs (normalizeChecksum alg) now
      (normalizeChecksum_supported alg) with ⟨cfs, hb, -⟩
    rcases hval with hv | hv
    · rw [writeMetadata, hv]
      simp only [hb]
      rfl
    · rw [writeMetadata, hv]
      simp only [hb]
      rfl

/-- A concrete manifest entry, manifest, and store for the C2 witness: the
store holds the manifest, one referenced core file, one stale core file,
and one staging file. -/
def c2entry : RepoData :=
  { dtype := "primary", checksum := ⟨"sha256", "aa"⟩, openChecksum := none,
    location := ⟨"repodata/aa-primary.xml.gz"⟩, timestamp := 0, size := 0,
    openSize := 0 }

def c2md : RepoMD := ⟨"", "1", [c2entry]⟩

def c2st : Store :=
  ⟨[("repodata/repomd.xml", [1]), ("repodata/aa-primary.xml.gz", [2]),
    ("repodata/old-primary.xml.gz", [3]), ("repodata/.tmp/x", [4])]⟩

/-- Witness for C2 at concrete inputs. -/
theorem gc_deletes_exactly_unreferenced_witness :
    ((cleanupOldMetadata (fun _ => true) c2st c2md).1.read
        "repodata/old-primary.xml.gz" = none) ∧
    ((cleanupOldMetadata (fun _ => true) c2st c2md).1.read
        "repodata/aa-primary.xml.gz" = some [2]) ∧
    ("warn: delete " ++ "repodata/old-primary.xml.gz") ∈
      (cleanupOldMetadata (fun _ => false)
        ⟨[("repodata/repomd.xml", [1]), ("repodata/old-primary.xml.gz", [3])]⟩
        ⟨"", "1", []⟩).2.2 ∧
    (writeMetadata cfgTrue ⟨[]⟩ ⟨"", "", []⟩ [] "sha256" 0).out.isOk = true := by
  refine ⟨?_, ?_, ?_, ?_⟩
  · rw [gc_deletes_exactly_unreferenced.1]
    decide
  · rw [gc_deletes_exactly_unreferenced.1]
    decide
  · exact gc_deletes_exactly_unreferenced.2.1 (fun _ => false) _ _ _
      (by decide) (by decide) (by decide) (by decide) (by decide) rfl
  · exact gc_deletes_exactly_unreferenced.2.2 cfgTrue ⟨[]⟩ ⟨"", "", []⟩ []
      "sha256" 0 (Or.inl rfl)

/-! ## Claim C6: manifest reassembly -/

/-- Specification-side predicate (claim C6): a metadata type is unknown
when it is none of the three core types, `prestodelta`, or `modules`. -/
def isUnknownMDType (t : String) : Bool :=
  !(["primary", "filelists", "other", "prestodelta", "modules"].contains t)

/-- Specification-side predicate (claim C6): which previous entries the
reassembled manifest keeps — `modules` always, unknown types only under
`allow-unknown`. -/
def specKeepEntry (allowUnknown : Bool) (d : RepoData) : Bool :=
  d.dtype == "modules" || (allowUnknown && isUnknownMDType d.dtype)

theorem assembleStep_eq (allowUnknown : Bool)
    (acc : List RepoData × List String) (d : RepoData) :
    assembleStep allowUnknown acc d =
      (acc.1 ++ (if specKeepEntry allowUnknown d then [d] else []),
       if isUnknownMDType d.dtype then insertIfAbsent acc.2 d.dtype
       else acc.2) := by
  rw [assembleStep]
  by_cases h1 : d.dtype = "primary"
  · simp [specKeepEntry, isUnknownMDType, h1]
  · by_cases h2 : d.dtype = "filelists"
    · simp [specKeepEntry, isUnknownMDType, h2]
    · by_cases h3 : d.dtype = "other"
      · simp [specKeepEntry, isUnknownMDType, h3]
      · by_cases h4 : d.dtype = "prestodelta"
        · simp [specKeepEntry, isUnknownMDType, h4]
        · by_cases h5 : d.dtype = "modules"
          · simp [specKeepEntry, isUnknownMDType, h5]
          · have hu : isUnknownMDType d.dtype = true := by
              simp [isUnknownMDType, h1, h2, h3, h4, h5]
            have hk : specKeepEntry allowUnknown d = allowUnknown := by
              simp [specKeepEntry, h5, hu]
            split
            · next heq => exact absurd heq h1
            · next heq => exact absurd heq h2
            · next heq => exact absurd heq h3
            · next heq => exact absurd heq h4
            · next heq => exact absurd heq h5
            · cases hA : allowUnknown <;> (rw [hA] at hk; simp [hk, hu])

theorem assembleFold_spec (allowUnknown : Bool) (data : List RepoData) :
    ∀ acc : List RepoData × List String,
      (data.foldl (assembleStep allowUnknown) acc).1 =
        acc.1 ++ data.filter (specKeepEntry allowUnknown) ∧
      (data.foldl (assembleStep allowUnknown) acc).2 =
        ((data.filter fun d => isUnknownMDType d.dtype).map
          fun d => d.dtype).foldl insertIfAbsent acc.2 := by
  induction data with
  | nil => intro acc; simp
  | cons d rest ih =>
    intro acc
    rw [List.foldl_cons, assembleStep_eq]
    rcases ih (acc.1 ++ (if specKeepEntry allowUnknown d then [d] else []),
      if isUnknownMDType d.dtype then insertIfAbsent acc.2 d.dtype
      else acc.2) with ⟨ih1, ih2⟩
    constructor
    · rw [ih1]
      by_cases hk : specKeepEntry allowUnknown d = true
      · rw [List.filter_cons, if_pos hk]
        simp [hk]
      · rw [List.filter_cons, if_neg hk]
        simp [hk]
    · rw [ih2]
      by_cases hu : isUnknownMDType d.dtype = true
      · rw [List.filter_cons, if_pos hu]
        simp [hu]
      · rw [List.filter_cons, if_neg hu]
        simp [hu]

/-- Claim C6: reassembling the manifest drops every previous `primary`,
`filelists`, `other` and `prestodelta` entry, copies every `modules` entry
verbatim, copies unknown-type entries verbatim exactly when
`allow-unknown` is set, appends the new core entries, and emits exactly
one warning per distinct unknown type whether or not `allow-unknown` is
set. -/
theorem assembleRepoMD_spec (old : RepoMD) (core : List CoreFile)
    (alg : String) (now : Int) (allowUnknown : Bool) :
    (assembleRepoMD old core alg now allowUnknown).1.data =
      old.data.filter (specKeepEntry allowUnknown) ++
        core.map (newCoreEntry alg) ∧
    ∃ ts : List String,
      ts.Nodup ∧
      (∀ t, t ∈ ts ↔ (isUnknownMDType t = true ∧ ∃ d ∈ old.data, d.dtype = t)) ∧
      (assembleRepoMD old core alg now allowUnknown).2 =
        ts.map unknownTypeWarning ∧
      (assembleRepoMD old core alg now true).2 =
        (assembleRepoMD old core alg now false).2 := by
  rcases assembleFold_spec allowUnknown old.data ([], []) with ⟨h1, h2⟩
  constructor
  · rw [assembleRepoMD]
    simp only [h1, List.nil_append]
  · refine ⟨((old.data.filter fun d => isUnknownMDType d.dtype).map
      fun d => d.dtype).foldl insertIfAbsent [], ?_, ?_, ?_, ?_⟩
    · exact foldl_insertIfAbsent_nodup _ _ List.nodup_nil
    · intro t
      rw [foldl_insertIfAbsent_mem]
      simp only [List.not_mem_nil, false_or, List.mem_map, List.mem_filter]
      constructor
      · rintro ⟨d, ⟨hd, hu⟩, rfl⟩
        exact ⟨hu, d, hd, rfl⟩
      · rintro ⟨hu, d, hd, rfl⟩
        exact ⟨d, ⟨hd, hu⟩, rfl⟩
    · rw [assembleRepoMD]
      simp only [h2]
    · rcases assembleFold_spec true old.data ([], []) with ⟨-, h2t⟩
      rcases assembleFold_spec false old.data ([], []) with ⟨-, h2f⟩
      rw [assembleRepoMD, assembleRepoMD]
      simp only [h2t, h2f]

/-! ## C5: the checksum-algorithm policy of a rewrite -/

/-- `normalizeChecksum` falls back to `sha256` on anything but the exact
lowercase names. -/
theorem normalizeChecksum_default (a : String) (h1 : a ≠ "sha256")
    (h2 : a ≠ "sha512") : normalizeChecksum a = "sha256" := by
  unfold normalizeChecksum
  split
  · exact absurd rfl h1
  · exact absurd rfl h2
  · rfl

/-- Under an exact-lowercase algorithm, the three core bundles digest
their compressed and uncompressed payloads with that algorithm, which is
also embedded in their paths. -/
theorem buildCore_digests (a : String) (pkgs : List Package) (now : Int)
    (ha : a = "sha256" ∨ a = "sha512") :
    ∃ cfs,
      BuildCoreFilesFromPackages pkgs a now = .ok cfs ∧
      ∀ cf ∈ cfs,
        cf.checksum = digestHex a cf.compressed ∧
        cf.openChecksum = digestHex a cf.uncompressed ∧
        cf.path = "repodata/" ++ cf.checksum ++ "-" ++ cf.ctype ++
          ".xml.gz" := by
  rcases ha with rfl | rfl <;>
    exact ⟨_, by rfl, by
      intro cf hcf
      fin_cases hcf <;> exact ⟨rfl, rfl, rfl⟩⟩

/-- A manifest primary entry recording the algorithm name `SHA512`. -/
def c5primary : RepoData :=
  { dtype := "primary", checksum := ⟨"SHA512", "v"⟩, openChecksum := none,
    location := ⟨"repodata/v-primary.xml.gz"⟩, timestamp := 0, size := 0,
    openSize := 0 }

/-- Counterexample to claim C5 as stated: a manifest whose primary entry
records the algorithm `SHA512` carries a supported algorithm
(`SupportedChecksum` compares case-insensitively) that is neither unknown
nor empty, yet a rewrite of that repository digests every new core bundle
with `sha256`, because `normalizeChecksum` matches the recorded name
case-sensitively. -/
theorem checksum_algorithm_counterexample :
    SupportedChecksum (loadedChecksumAlg c5primary) = true ∧
    loadedChecksumAlg c5primary = "SHA512" ∧
    ((writeMetadata cfgTrue ⟨[]⟩ ⟨"", "1", [c5primary]⟩ []
        (loadedChecksumAlg c5primary) 0).out.toOption.map fun r =>
      r.newMD.data.map fun e => e.checksum.ctype) =
      some ["sha256", "sha256", "sha256"] := by
  refine ⟨by decide, by decide, ?_⟩
  rfl

/-- Claim C5, amended: the algorithm recorded in the manifest's primary
entry is honoured only when it is exactly the lowercase `sha256` or
`sha512`; every other recorded value — including supported but
differently-cased spellings, which `SupportedChecksum` accepts — is
replaced by `sha256` (as is an empty recording). The rewrite digests the
new core bundles (checksum, open checksum, and the digest embedded in the
`repodata/<digest>-<type>.xml.gz` path) with the effective algorithm
`normalizeChecksum (loadedChecksumAlg d)`. -/
theorem checksum_algorithm_policy (d : RepoData) (pkgs : List Package)
    (now : Int) :
    (d.checksum.ctype = "sha256" ∨ d.checksum.ctype = "sha512" →
      normalizeChecksum (loadedChecksumAlg d) = d.checksum.ctype) ∧
    (d.checksum.ctype ≠ "sha256" → d.checksum.ctype ≠ "sha512" →
      normalizeChecksum (loadedChecksumAlg d) = "sha256") ∧
    ∃ cfs,
      BuildCoreFilesFromPackages pkgs
        (normalizeChecksum (loadedChecksumAlg d)) now = .ok cfs ∧
      ∀ cf ∈ cfs,
        cf.checksum =
          digestHex (normalizeChecksum (loadedChecksumAlg d)) cf.compressed ∧
        cf.openChecksum =
          digestHex (normalizeChecksum (loadedChecksumAlg d))
            cf.uncompressed ∧
        cf.path = "repodata/" ++ cf.checksum ++ "-" ++ cf.ctype ++
          ".xml.gz" := by
  refine ⟨?_, ?_, ?_⟩
  · intro h
    have hl : loadedChecksumAlg d = d.checksum.ctype := by
      rcases h with h | h <;> simp [loadedChecksumAlg, h]
    rcases h with h | h <;> rw [hl, h] <;> rfl
  · intro h1 h2
    by_cases he : d.checksum.ctype = ""
    · rw [loadedChecksumAlg, if_pos he]
      rfl
    · rw [loadedChecksumAlg, if_neg he]
      exact normalizeChecksum_default _ h1 h2
  · exact buildCore_digests _ pkgs now (normalizeChecksum_supported _)

/-- Witness for the amended C5 at a concrete input: an entry recording
exactly `sha512` keeps its algorithm. -/
theorem checksum_algorithm_policy_witness :
    normalizeChecksum (loadedChecksumAlg
      { dtype := "primary", checksum := ⟨"sha512", "v"⟩,
        openChecksum := none, location := ⟨"p"⟩, timestamp := 0,
        size := 0, openSize := 0 }) = "sha512" ∧
    ∃ cfs,
      BuildCoreFilesFromPackages []
        (normalizeChecksum (loadedChecksumAlg
          { dtype := "primary", checksum := ⟨"sha512", "v"⟩,
            openChecksum := none, location := ⟨"p"⟩, timestamp := 0,
            size := 0, openSize := 0 })) 0 = .ok cfs ∧
      ∀ cf ∈ cfs,
        cf.checksum =
          digestHex (normalizeChecksum (loadedChecksumAlg
            { dtype := "primary", checksum := ⟨"sha512", "v"⟩,
              openChecksum := none, location := ⟨"p"⟩, timestamp := 0,
              size := 0, openSize := 0 })) cf.compressed ∧
        cf.openChecksum =
          digestHex (normalizeChecksum (loadedChecksumAlg
            { dtype := "primary", checksum := ⟨"sha512", "v"⟩,
              openChecksum := none, location := ⟨"p"⟩, timestamp := 0,
              size := 0, openSize := 0 })) cf.uncompressed ∧
        cf.path = "repodata/" ++ cf.checksum ++ "-" ++ cf.ctype ++
          ".xml.gz" :=
  ⟨(checksum_algorithm_policy
      { dtype := "primary", checksum := ⟨"sha512", "v"⟩,
        openChecksum := none, location := ⟨"p"⟩, timestamp := 0,
        size := 0, openSize := 0 } [] 0).1 (Or.inr rfl),
   (checksum_algorithm_policy
      { dtype := "primary", checksum := ⟨"sha512", "v"⟩,
        openChecksum := none, location := ⟨"p"⟩, timestamp := 0,
        size := 0, openSize := 0 } [] 0).2.2⟩

/-! ## C9: the check operation's re-verification of core entries -/

/-- A successful `ComputeChecksum` always returns the digest under the
lower-cased algorithm. -/
theorem computeChecksum_ok_inv (data : Bytes) (a : String) (s : String)
    (h : ComputeChecksum data a = .ok s) :
    s = digestHex (toLowerStr a) data := by
  unfold ComputeChecksum at h
  split at h
  · rename_i heq
    rw [heq]
    exact (Except.ok.inj h).symm
  · rename_i heq
    rw [heq]
    exact (Except.ok.inj h).symm
  · exact Except.noConfusion h

/-- Inversion of a successful `ReadAndVerifyCore`: the returned bundle is
the stored file, its sizes are the actual byte counts, and both recorded
digests equal the recomputed ones. -/
theorem readAndVerifyCore_ok_inv (st : Store) (d : RepoData)
    (core : CoreFile) (h : ReadAndVerifyCore st d = .ok core) :
    st.read d.location.href = some core.compressed ∧
    gunzip core.compressed = .ok core.uncompressed ∧
    core.size = (core.compressed.length : Int) ∧
    core.openSize = (core.uncompressed.length : Int) ∧
    d.checksum.value =
      digestHex (toLowerStr d.checksum.ctype) core.compressed ∧
    ∃ oc, d.openChecksum = some oc ∧
      oc.value = digestHex (toLowerStr oc.ctype) core.uncompressed := by
  unfold ReadAndVerifyCore at h
  split at h
  · exact Except.noConfusion h
  split at h
  · exact Except.noConfusion h
  rename_i compressed hread
  split at h
  · exact Except.noConfusion h
  rename_i uncompressed hgz
  split at h
  · exact Except.noConfusion h
  rename_i oc hoc
  split at h
  · exact Except.noConfusion h
  split at h
  · exact Except.noConfusion h
  split at h
  · exact Except.noConfusion h
  rename_i sum hcs
  split at h
  · exact Except.noConfusion h
  rename_i hv
  split at h
  · exact Except.noConfusion h
  rename_i openSum hcso
  split at h
  · exact Except.noConfusion h
  rename_i hvo
  have hcore := Except.ok.inj h
  subst hcore
  have hs := computeChecksum_ok_inv compressed d.checksum.ctype sum hcs
  have hso := computeChecksum_ok_inv uncompressed oc.ctype openSum hcso
  have hv' : sum = d.checksum.value := not_not.mp hv
  have hvo' : openSum = oc.value := not_not.mp hvo
  exact ⟨hread, hgz, rfl, rfl, by rw [← hv']; exact hs,
    oc, hoc, by rw [← hvo']; exact hso⟩

/-- Claim C9, amended: for every core entry the check re-reads the file
at its href, recomputes both digests (a mismatch in either surfaces as a
`core <type>: ...` error), and compares the recorded size and open-size
against the actual compressed and uncompressed byte counts — but each
size comparison is skipped when the recorded value is 0, so a recorded
size of 0 never produces a mismatch error no matter the actual byte
count. -/
theorem check_core_verification (st : Store) (d : RepoData) :
    (∀ core, ReadAndVerifyCore st d = .ok core →
      st.read d.location.href = some core.compressed ∧
      gunzip core.compressed = .ok core.uncompressed ∧
      core.size = (core.compressed.length : Int) ∧
      core.openSize = (core.uncompressed.length : Int) ∧
      d.checksum.value =
        digestHex (toLowerStr d.checksum.ctype) core.compressed ∧
      (∃ oc, d.openChecksum = some oc ∧
        oc.value = digestHex (toLowerStr oc.ctype) core.uncompressed) ∧
      (d.size ≠ 0 → d.size ≠ core.size →
        ("core " ++ d.dtype ++ " size mismatch: repomd=" ++ itoa d.size ++
          " actual=" ++ itoa core.size) ∈ checkCoreEntry st d) ∧
      (d.openSize ≠ 0 → d.openSize ≠ core.openSize →
        ("core " ++ d.dtype ++ " open-size mismatch: repomd=" ++
          itoa d.openSize ++ " actual=" ++ itoa core.openSize) ∈
          checkCoreEntry st d) ∧
      (d.size = 0 → d.openSize = 0 → checkCoreEntry st d = [])) ∧
    ∀ e, ReadAndVerifyCore st d = .error e →
      checkCoreEntry st d = ["core " ++ d.dtype ++ ": " ++ e] := by
  constructor
  · intro core hok
    obtain ⟨h1, h2, h3, h4, h5, h6⟩ := readAndVerifyCore_ok_inv st d core hok
    have hce : checkCoreEntry st d = checkCoreEntrySizeErrs core d := by
      simp only [checkCoreEntry, hok]
    refine ⟨h1, h2, h3, h4, h5, h6, ?_, ?_, ?_⟩
    · intro hs1 hs2
      rw [hce, checkCoreEntrySizeErrs, if_pos ⟨hs1, hs2⟩]
      exact List.mem_append_left _ (List.mem_singleton_self _)
    · intro ho1 ho2
      rw [hce, checkCoreEntrySizeErrs]
      refine List.mem_append_right _ ?_
      rw [if_pos ⟨ho1, ho2⟩]
      exact List.mem_singleton_self _
    · intro hz1 hz2
      have hA : ¬(d.size ≠ 0 ∧ d.size ≠ core.size) := fun hc => hc.1 hz1
      have hB : ¬(d.openSize ≠ 0 ∧ d.openSize ≠ core.openSize) :=
        fun hc => hc.1 hz2
      rw [hce, checkCoreEntrySizeErrs, if_neg hA, if_neg hB]
      rfl
  · intro e he
    simp only [checkCoreEntry, he]

/-- A stored primary payload for the C9 inputs. -/
def c9core : CoreFile :=
  { ctype := "primary", path := "repodata/c9-primary.xml.gz",
    compressed := gzipBytes [7], uncompressed := [7],
    checksum := digestHex "sha256" (gzipBytes [7]),
    openChecksum := digestHex "sha256" [7],
    size := 3, openSize := 1, timestamp := 0 }

/-- A primary entry with matching digests whose recorded sizes are 0. -/
def c9entry : RepoData :=
  { dtype := "primary",
    checksum := ⟨"sha256", digestHex "sha256" (gzipBytes [7])⟩,
    openChecksum := some ⟨"sha256", digestHex "sha256" [7]⟩,
    location := ⟨"repodata/c9-primary.xml.gz"⟩,
    timestamp := 0, size := 0, openSize := 0 }

/-- The same entry with a wrong nonzero recorded size. -/
def c9bad : RepoData :=
  { dtype := "primary",
    checksum := ⟨"sha256", digestHex "sha256" (gzipBytes [7])⟩,
    openChecksum := some ⟨"sha256", digestHex "sha256" [7]⟩,
    location := ⟨"repodata/c9-primary.xml.gz"⟩,
    timestamp := 0, size := 5, openSize := 0 }

/-- A filelists entry matching the stored file, sizes 0. -/
def c9fl : RepoData :=
  { dtype := "filelists",
    checksum := ⟨"sha256", digestHex "sha256" (gzipBytes [8])⟩,
    openChecksum := some ⟨"sha256", digestHex "sha256" [8]⟩,
    location := ⟨"repodata/c9-filelists.xml.gz"⟩,
    timestamp := 0, size := 0, openSize := 0 }

/-- An other entry matching the stored file, sizes 0. -/
def c9ot : RepoData :=
  { dtype := "other",
    checksum := ⟨"sha256", digestHex "sha256" (gzipBytes [9])⟩,
    openChecksum := some ⟨"sha256", digestHex "sha256" [9]⟩,
    location := ⟨"repodata/c9-other.xml.gz"⟩,
    timestamp := 0, size := 0, openSize := 0 }

/-- The C9 store and manifest. -/
def c9st : Store :=
  ⟨[("repodata/c9-primary.xml.gz", gzipBytes [7]),
    ("repodata/c9-filelists.xml.gz", gzipBytes [8]),
    ("repodata/c9-other.xml.gz", gzipBytes [9])]⟩

def c9md : RepoMD := ⟨"ns", "1", [c9entry, c9fl, c9ot]⟩

/-- Counterexample to claim C9 as stated: the stored primary file is 3
compressed and 1 uncompressed bytes, the manifest entry records size 0
and open-size 0 — both differ from the actual counts — yet the check
reports no error at all, because the size comparisons are skipped
whenever the recorded value is 0. -/
theorem check_size_counterexample :
    ReadAndVerifyCore c9st c9entry = .ok c9core ∧
    c9entry.size = 0 ∧ c9core.size = 3 ∧
    c9entry.openSize = 0 ∧ c9core.openSize = 1 ∧
    checkCoreEntry c9st c9entry = [] ∧
    checkCollectCoreErrs c9st c9md = [] :=
  ⟨by rfl, by rfl, by rfl, by rfl, by rfl, by rfl, by rfl⟩

/-- Witness for the amended C9 at concrete inputs: a wrong nonzero
recorded size is reported, matching recorded data with zero sizes is
not. -/
theorem check_core_verification_witness :
    ("core " ++ c9bad.dtype ++ " size mismatch: repomd=" ++
      itoa c9bad.size ++ " actual=" ++ itoa c9core.size) ∈
      checkCoreEntry c9st c9bad ∧
    checkCoreEntry c9st c9entry = [] :=
  ⟨((check_core_verification c9st c9bad).1 c9core
      (by rfl)).2.2.2.2.2.2.1 (by decide) (by decide),
   ((check_core_verification c9st c9entry).1 c9core
      (by rfl)).2.2.2.2.2.2.2.2 (by rfl) (by rfl)⟩

/-! ## C10: attachment of filelists/other data by pkgid -/

/-- The index `ParsePackagesFromXML` resolves pkgids through: position of
the LAST primary package with that pkgid. -/
def primaryIdx (prim : PrimaryDoc) (id : String) : Option Nat :=
  lastIdxOf ((prim.packages.map packageFromPrimary).map Package.pkgID) id

/-- Positional characterization of `applyFilelists`: position `i` receives
exactly the files of the entries whose pkgid resolves to `i`, in order. -/
theorem applyFilelists_getElem (idx : String → Option Nat)
    (entries : List FilelistsPackageX) :
    ∀ (base : List Package) (i : Nat),
      (applyFilelists idx base entries)[i]? = base[i]?.map fun pkg =>
        { pkg with files := pkg.files ++
            ((entries.filter fun p => idx p.pkgid = some i).map fun p =>
              p.files.map fun f => (⟨f.path, f.ftype⟩ : FileRec)).flatten } := by
  induction entries with
  | nil =>
    intro base i
    cases hb : base[i]? <;> simp [applyFilelists, hb]
  | cons p rest ih =>
    intro base i
    rw [applyFilelists, List.foldl_cons, ← applyFilelists, ih]
    cases hidx : idx p.pkgid with
    | none =>
      simp [flStep, hidx, List.filter_cons]
    | some j =>
      simp only [flStep, hidx, getElem?_updateAt, List.filter_cons]
      by_cases hji : j = i
      · rw [if_pos hji]
        cases hb : base[i]? <;> simp [hb, hji, List.append_assoc]
      · rw [if_neg hji]
        have hne : ¬(some j = some i) := fun hc => hji (Option.some.inj hc)
        cases hb : base[i]? <;> simp [hb, hne]

/-- Positional characterization of `applyOther`. -/
theorem applyOther_getElem (idx : String → Option Nat)
    (entries : List OtherPackageX) :
    ∀ (base : List Package) (i : Nat),
      (applyOther idx base entries)[i]? = base[i]?.map fun pkg =>
        { pkg with changelogs := pkg.changelogs ++
            ((entries.filter fun p => idx p.pkgid = some i).map fun p =>
              p.changelogs.map fun c =>
                (⟨c.author, c.date, c.text⟩ : Changelog)).flatten } := by
  induction entries with
  | nil =>
    intro base i
    cases hb : base[i]? <;> simp [applyOther, hb]
  | cons p rest ih =>
    intro base i
    rw [applyOther, List.foldl_cons, ← applyOther, ih]
    cases hidx : idx p.pkgid with
    | none =>
      simp [otStep, hidx, List.filter_cons]
    | some j =>
      simp only [otStep, hidx, getElem?_updateAt, List.filter_cons]
      by_cases hji : j = i
      · rw [if_pos hji]
        cases hb : base[i]? <;> simp [hb, hji, List.append_assoc]
      · rw [if_neg hji]
        have hne : ¬(some j = some i) := fun hc => hji (Option.some.inj hc)
        cases hb : base[i]? <;> simp [hb, hne]

/-- Positional characterization of the whole parse. -/
theorem parsePackages_getElem (prim : PrimaryDoc) (fl : FilelistsDoc)
    (oth : OtherDoc) (i : Nat) :
    (ParsePackagesFromXML prim fl oth)[i]? =
      ((prim.packages.map packageFromPrimary)[i]?).map fun pkg =>
        { pkg with
          files := pkg.files ++
            ((fl.packages.filter fun p =>
                primaryIdx prim p.pkgid = some i).map fun p =>
              p.files.map fun f => (⟨f.path, f.ftype⟩ : FileRec)).flatten,
          changelogs := pkg.changelogs ++
            ((oth.packages.filter fun p =>
                primaryIdx prim p.pkgid = some i).map fun p =>
              p.changelogs.map fun c =>
                (⟨c.author, c.date, c.text⟩ : Changelog)).flatten } := by
  simp only [ParsePackagesFromXML]
  rw [applyOther_getElem, applyFilelists_getElem]
  simp only [primaryIdx]
  cases hb : (prim.packages.map packageFromPrimary)[i]? <;> simp [hb]

/-- Claim C10: parsing attaches filelists and other payloads by `pkgid`
through the last-occurrence index of the primary packages: entries whose
`pkgid` matches no primary package are silently dropped (filtering them
away does not change the parse, which still succeeds), each package
receives exactly the files and changelogs of the entries resolving to its
position, and a primary package whose `pkgid` recurs later in the
document receives nothing. -/
theorem parse_unmatched_and_duplicates (prim : PrimaryDoc)
    (fl : FilelistsDoc) (oth : OtherDoc) :
    ParsePackagesFromXML prim fl oth =
      ParsePackagesFromXML prim
        ⟨fl.xmlns, fl.count, fl.packages.filter fun p =>
          (primaryIdx prim p.pkgid).isSome⟩
        ⟨oth.xmlns, oth.count, oth.packages.filter fun p =>
          (primaryIdx prim p.pkgid).isSome⟩ ∧
    (∀ i : Nat, (ParsePackagesFromXML prim fl oth)[i]? =
      ((prim.packages.map packageFromPrimary)[i]?).map fun (pkg : Package) =>
        { pkg with
          files := pkg.files ++
            ((fl.packages.filter fun p =>
                primaryIdx prim p.pkgid = some i).map
              fun (p : FilelistsPackageX) =>
                p.files.map fun f => (⟨f.path, f.ftype⟩ : FileRec)).flatten,
          changelogs := pkg.changelogs ++
            ((oth.packages.filter fun p =>
                primaryIdx prim p.pkgid = some i).map
              fun (p : OtherPackageX) =>
                p.changelogs.map fun c =>
                  (⟨c.author, c.date, c.text⟩ : Changelog)).flatten }) ∧
    ∀ (i : Nat) (id : String),
      (((prim.packages.map packageFromPrimary).map Package.pkgID)[i]? =
        some id) →
      primaryIdx prim id ≠ some i →
      (ParsePackagesFromXML prim fl oth)[i]? =
        (prim.packages.map packageFromPrimary)[i]? := by
  refine ⟨?_, fun i => parsePackages_getElem prim fl oth i, ?_⟩
  · apply List.ext_getElem?
    intro i
    simp only [parsePackages_getElem]
    have hfl : ((fl.packages.filter fun p =>
          (primaryIdx prim p.pkgid).isSome).filter fun p =>
            primaryIdx prim p.pkgid = some i) =
        fl.packages.filter fun p => primaryIdx prim p.pkgid = some i := by
      rw [List.filter_filter]
      apply List.filter_congr
      intro p _
      cases hidx : primaryIdx prim p.pkgid <;> simp [hidx]
    have hot : ((oth.packages.filter fun p =>
          (primaryIdx prim p.pkgid).isSome).filter fun p =>
            primaryIdx prim p.pkgid = some i) =
        oth.packages.filter fun p => primaryIdx prim p.pkgid = some i := by
      rw [List.filter_filter]
      apply List.filter_congr
      intro p _
      cases hidx : primaryIdx prim p.pkgid <;> simp [hidx]
    rw [hfl, hot]
  · intro i id hid hne
    rw [parsePackages_getElem]
    have hfl : (fl.packages.filter fun p =>
        primaryIdx prim p.pkgid = some i) = [] := by
      rw [List.filter_eq_nil_iff]
      intro p _
      simp only [decide_eq_true_eq]
      intro hp
      rcases lastIdxOf_mem_spec _ p.pkgid i
        (by rw [primaryIdx] at hp; exact hp) with ⟨-, hgi⟩
      have hpk : p.pkgid = id := Option.some.inj (hgi.symm.trans hid)
      exact hne (hpk ▸ hp)
    have hot : (oth.packages.filter fun p =>
        primaryIdx prim p.pkgid = some i) = [] := by
      rw [List.filter_eq_nil_iff]
      intro p _
      simp only [decide_eq_true_eq]
      intro hp
      rcases lastIdxOf_mem_spec _ p.pkgid i
        (by rw [primaryIdx] at hp; exact hp) with ⟨-, hgi⟩
      have hpk : p.pkgid = id := Option.some.inj (hgi.symm.trans hid)
      exact hne (hpk ▸ hp)
    rw [hfl, hot]
    cases hb : (prim.packages.map packageFromPrimary)[i]? <;> simp [hb]

/-- A primary package body whose pkgid is `id`. -/
def c10p (id : String) : PrimaryPackageX :=
  { (default : PrimaryPackageX) with checksum := ⟨"sha256", "YES", id⟩ }

/-- A primary document with two packages sharing pkgid `A`. -/
def c10prim : PrimaryDoc := ⟨"", "", 2, [c10p "A", c10p "A"]⟩

/-- A filelists document with one entry matching `A` and one unmatched. -/
def c10fl : FilelistsDoc :=
  ⟨"", 2, [⟨"A", "", "", default, [⟨"file", "/a"⟩]⟩,
           ⟨"Z", "", "", default, [⟨"file", "/z"⟩]⟩]⟩

def c10oth : OtherDoc := ⟨"", 2, []⟩

/-- Witness for C10 at concrete inputs: the unmatched entry `Z` can be
filtered away without changing the parse, and the first of the two
packages sharing pkgid `A` receives nothing. -/
theorem parse_unmatched_and_duplicates_witness :
    ParsePackagesFromXML c10prim c10fl c10oth =
      ParsePackagesFromXML c10prim
        ⟨c10fl.xmlns, c10fl.count, c10fl.packages.filter fun p =>
          (primaryIdx c10prim p.pkgid).isSome⟩
        ⟨c10oth.xmlns, c10oth.count, c10oth.packages.filter fun p =>
          (primaryIdx c10prim p.pkgid).isSome⟩ ∧
    (ParsePackagesFromXML c10prim c10fl c10oth)[0]? =
      (c10prim.packages.map packageFromPrimary)[0]? :=
  ⟨(parse_unmatched_and_duplicates c10prim c10fl c10oth).1,
   (parse_unmatched_and_duplicates c10prim c10fl c10oth).2.2 0 "A"
     (by rfl) (by decide)⟩

/-! ## C4: the render/parse round trip -/

/-- Go `xml.Unmarshal` for one primary package, at document level: Go's
`encoding/xml` does not resolve the `rpm:` namespace prefix on unmarshal
(the repository's `TestPackageWithDependencies` documents this), so none
of `primaryFormat`'s `rpm:`-tagged fields — license, vendor, group,
buildhost, sourcerpm, header-range, and the four dependency lists — are
ever populated when decoding; every unprefixed field decodes to what was
written. -/
def emptyFormatX : PrimaryFormatX :=
  { license := "", vendor := "", group := "", buildHost := "",
    sourceRPM := "", headerRange := none, provides := [],
    requires := [], conflicts := [], obsoletes := [] }

def unmarshalPrimaryPackageX (p : PrimaryPackageX) : PrimaryPackageX :=
  { p with format := emptyFormatX }

/-- Go `xml.Unmarshal` of a marshalled primary document. The filelists,
other and repomd documents carry no `rpm:`-prefixed tags, so their
decoding is the identity on document values. -/
def unmarshalPrimaryDoc (d : PrimaryDoc) : PrimaryDoc :=
  { d with packages := d.packages.map unmarshalPrimaryPackageX }

/-- The descriptor fields a primary-document round trip preserves:
everything except the `rpm:`-tagged format fields, which read back as
zero values. -/
def stripFormat (p : Package) : Package :=
  { p with
    license := "", vendor := "", group := "", buildHost := "",
    sourceRPM := "", headerStart := 0, headerEnd := 0, provides := [],
    requires := [], conflicts := [], obsoletes := [] }

/-- Two packages sharing a pkgid; the first carries a file entry. -/
def c4dups : List Package :=
  [{ mkPkg "a" "1" "p" "a.rpm" with files := [⟨"/bin/a", "file"⟩] },
   mkPkg "b" "1" "p" "b.rpm"]

/-- A package with a nonempty `rpm:`-tagged format field. -/
def c4lic : Package := { mkPkg "a" "1" "p" "a.rpm" with license := "GPL" }

/-- Counterexample to claim C4 as stated: the round trip fails for any
package carrying an `rpm:`-tagged format field (here a license), because
the decoder never populates those fields, and it also fails when two
packages share a pkgid (their file lists all reattach to the last of the
two). -/
theorem render_parse_counterexample :
    ParsePackagesFromXML (unmarshalPrimaryDoc (RenderCoreXML [c4lic]).1)
      (RenderCoreXML [c4lic]).2.1 (RenderCoreXML [c4lic]).2.2 ≠
      sortByNEVRA [c4lic] ∧
    ParsePackagesFromXML (unmarshalPrimaryDoc (RenderCoreXML c4dups).1)
      (RenderCoreXML c4dups).2.1 (RenderCoreXML c4dups).2.2 ≠
      sortByNEVRA c4dups := by
  exact ⟨by decide, by decide⟩

theorem itoa_ne_empty (i : Int) : itoa i ≠ "" := by
  rw [itoa]
  split
  · intro h
    have hd := congrArg String.data h
    simp [String.data_append] at hd
  · intro h
    rw [itoaNat] at h
    have hd : (natDigits i.toNat).map digitChar = [] := congrArg String.data h
    cases hnd : natDigits i.toNat with
    | nil => exact natDigits_ne_nil _ hnd
    | cons d ds =>
      rw [hnd] at hd
      simp at hd

theorem parseEpoch_itoa (i : Int) : parseEpoch (itoa i) = i := by
  rw [parseEpoch, if_neg (itoa_ne_empty i), atoi_itoa]
  rfl

theorem fileRecs_round (files : List FileRec) :
    ((files.map fun f => (⟨f.ftype, f.path⟩ : FileEntryX)).map fun f =>
      (⟨f.path, f.ftype⟩ : FileRec)) = files := by
  induction files with
  | nil => rfl
  | cons f fs ih => simp [ih]

theorem changelogs_round (chs : List Changelog) :
    ((chs.map fun c => (⟨c.author, c.date, c.text⟩ : ChangelogEntryX)).map
      fun c => (⟨c.author, c.date, c.text⟩ : Changelog)) = chs := by
  induction chs with
  | nil => rfl
  | cons c cs ih => simp [ih]

theorem fileRecs_round_comp (files : List FileRec) :
    files.map ((fun f => (⟨f.path, f.ftype⟩ : FileRec)) ∘ fun f =>
      (⟨f.ftype, f.path⟩ : FileEntryX)) = files := by
  rw [← List.map_map]
  exact fileRecs_round files

theorem changelogs_round_comp (chs : List Changelog) :
    chs.map ((fun c => (⟨c.author, c.date, c.text⟩ : Changelog)) ∘ fun c =>
      (⟨c.author, c.date, c.text⟩ : ChangelogEntryX)) = chs := by
  rw [← List.map_map]
  exact changelogs_round chs

/-- Per-package half of the round trip: unprefixed fields survive the
decode of marshalled output, the `rpm:`-tagged format fields come back as
zero values, and files/changelogs start empty. -/
theorem packageFromPrimary_unmarshal (p : Package) :
    packageFromPrimary (unmarshalPrimaryPackageX (marshalPrimaryPackage p)) =
      { stripFormat p with files := [], changelogs := [] } := by
  simp [packageFromPrimary, unmarshalPrimaryPackageX, marshalPrimaryPackage,
    stripFormat, emptyFormatX, relationsFromEntries, parseEpoch_itoa]

theorem charListLE_total :
    ∀ xs ys : List Char, charListLE xs ys = true ∨ charListLE ys xs = true := by
  intro xs
  induction xs with
  | nil => intro ys; left; rfl
  | cons c cs ih =>
    intro ys
    cases ys with
    | nil => right; rfl
    | cons d ds =>
      rw [charListLE, charListLE]
      rcases Nat.lt_trichotomy c.toNat d.toNat with h | h | h
      · left
        rw [if_pos h]
      · rw [if_neg (by omega), if_neg (by omega), if_neg (by omega),
          if_neg (by omega)]
        exact ih ds
      · right
        rw [if_pos h]

theorem charListLE_trans :
    ∀ xs ys zs : List Char, charListLE xs ys = true →
      charListLE ys zs = true → charListLE xs zs = true := by
  intro xs
  induction xs with
  | nil => intro ys zs _ _; rfl
  | cons c cs ih =>
    intro ys zs hxy hyz
    cases ys with
    | nil => exact absurd hxy (by rw [charListLE]; exact Bool.false_ne_true)
    | cons d ds =>
      cases zs with
      | nil => exact absurd hyz (by rw [charListLE]; exact Bool.false_ne_true)
      | cons e es =>
        rw [charListLE] at hxy hyz ⊢
        by_cases hcd : c.toNat < d.toNat
        · by_cases hde : d.toNat < e.toNat
          · rw [if_pos (by omega)]
          · by_cases hed : e.toNat < d.toNat
            · rw [if_neg hde, if_pos hed] at hyz
              exact absurd hyz Bool.false_ne_true
            · rw [if_pos (by omega)]
        · by_cases hdc : d.toNat < c.toNat
          · rw [if_neg hcd, if_pos hdc] at hxy
            exact absurd hxy Bool.false_ne_true
          · rw [if_neg hcd, if_neg hdc] at hxy
            by_cases hde : d.toNat < e.toNat
            · rw [if_pos (by omega)]
            · by_cases hed : e.toNat < d.toNat
              · rw [if_neg hde, if_pos hed] at hyz
                exact absurd hyz Bool.false_ne_true
              · rw [if_neg hde, if_neg hed] at hyz
                rw [if_neg (by omega), if_neg (by omega)]
                exact ih ds es hxy hyz

instance nevraTotalInst :
    IsTotal Package fun a b => strLE a.NEVRA b.NEVRA = true :=
  ⟨fun a b => charListLE_total a.NEVRA.data b.NEVRA.data⟩

instance nevraTransInst :
    IsTrans Package fun a b => strLE a.NEVRA b.NEVRA = true :=
  ⟨fun a b c hab hbc =>
    charListLE_trans a.NEVRA.data b.NEVRA.data c.NEVRA.data hab hbc⟩

/-- Zeroing the format fields preserves NEVRA keys, so a sorted list
stays sorted (and sorting it again is the identity). -/
theorem sortByNEVRA_map_strip (pkgs : List Package) :
    sortByNEVRA ((sortByNEVRA pkgs).map stripFormat) =
      (sortByNEVRA pkgs).map stripFormat := by
  rw [sortByNEVRA]
  apply List.Sorted.insertionSort_eq
  have hs : List.Sorted (fun a b : Package => strLE a.NEVRA b.NEVRA = true)
      (sortByNEVRA pkgs) :=
    List.sorted_insertionSort (fun a b => strLE a.NEVRA b.NEVRA = true) pkgs
  exact List.Pairwise.map stripFormat (fun a b hab => hab) hs

/-- The filelists payload depends only on fields `stripFormat` keeps. -/
theorem marshalFilelists_strip (S : List Package) :
    marshalFilelists (S.map stripFormat) = marshalFilelists S := by
  rw [marshalFilelists, marshalFilelists, List.map_map, List.length_map]
  rfl

/-- The other payload depends only on fields `stripFormat` keeps. -/
theorem marshalOther_strip (S : List Package) :
    marshalOther (S.map stripFormat) = marshalOther S := by
  rw [marshalOther, marshalOther, List.map_map, List.length_map]
  rfl

/-- The primary payloads of a list and of its stripped form decode to the
same document: they differ only in the `rpm:`-tagged subtrees the decoder
drops. -/
theorem unmarshal_marshalPrimary_strip (S : List Package) :
    unmarshalPrimaryDoc (marshalPrimary (S.map stripFormat)) =
      unmarshalPrimaryDoc (marshalPrimary S) := by
  simp only [unmarshalPrimaryDoc, marshalPrimary, List.map_map,
    List.length_map]
  rfl

/-- A filter whose predicate holds at exactly one position extracts that
element. -/
theorem filter_eq_of_unique {β : Type} :
    ∀ (es : List β) (pred : β → Bool) (i : Nat),
      (∀ (j : Nat) (e : β), es[j]? = some e → (pred e = true ↔ j = i)) →
      es.filter pred = (es[i]?).toList := by
  intro es
  induction es with
  | nil => intro pred i h; simp
  | cons e es' ih =>
    intro pred i h
    match i with
    | 0 =>
      have hpe : pred e = true := (h 0 e (by simp)).mpr rfl
      rw [List.filter_cons_of_pos hpe]
      have hrest : es'.filter pred = [] := by
        rw [List.filter_eq_nil_iff]
        intro x hx
        obtain ⟨j, hj⟩ := List.getElem?_of_mem hx
        intro hpx
        exact Nat.succ_ne_zero j
          ((h (j + 1) x (by simpa using hj)).mp hpx)
      rw [hrest]
      simp
    | i' + 1 =>
      have hpe : ¬pred e = true := fun hp =>
        Nat.succ_ne_zero i' ((h 0 e (by simp)).mp hp).symm
      rw [List.filter_cons_of_neg (by simpa using hpe)]
      rw [ih pred i' fun j x hj => by
        rw [h (j + 1) x (by simpa using hj)]
        omega]
      simp

/-- Parsing the marshalled documents back through the faithful decoder
yields the descriptor list with its `rpm:`-tagged format fields zeroed,
provided pkgids are pairwise distinct. -/
theorem parse_unmarshal_marshal_eq (S : List Package)
    (hn : (S.map Package.pkgID).Nodup) :
    ParsePackagesFromXML (unmarshalPrimaryDoc (marshalPrimary S))
      (marshalFilelists S) (marshalOther S) = S.map stripFormat := by
  have hpidx : ∀ id,
      primaryIdx (unmarshalPrimaryDoc (marshalPrimary S)) id =
      lastIdxOf (S.map Package.pkgID) id := by
    intro id
    rw [primaryIdx]
    congr 1
    show (((S.map marshalPrimaryPackage).map unmarshalPrimaryPackageX).map
        packageFromPrimary).map Package.pkgID = S.map Package.pkgID
    rw [List.map_map, List.map_map, List.map_map]
    rfl
  have hbase : (unmarshalPrimaryDoc (marshalPrimary S)).packages.map
      packageFromPrimary =
      S.map fun p =>
        { stripFormat p with files := [], changelogs := [] } := by
    show ((S.map marshalPrimaryPackage).map unmarshalPrimaryPackageX).map
        packageFromPrimary = _
    rw [List.map_map, List.map_map]
    exact List.map_congr_left fun p _ => packageFromPrimary_unmarshal p
  apply List.ext_getElem?
  intro i
  rw [parsePackages_getElem]
  have hfl : (marshalFilelists S).packages.filter
      (fun p =>
        primaryIdx (unmarshalPrimaryDoc (marshalPrimary S)) p.pkgid =
          some i) =
      (((marshalFilelists S).packages)[i]?).toList := by
    apply filter_eq_of_unique
    intro j e hj
    rw [show (marshalFilelists S).packages = S.map (fun p =>
        (⟨p.pkgID, p.name, p.arch, ⟨itoa p.epoch, p.version, p.release⟩,
          p.files.map fun f => ⟨f.ftype, f.path⟩⟩ : FilelistsPackageX))
      from rfl] at hj
    rw [List.getElem?_map] at hj
    rcases Option.map_eq_some'.mp hj with ⟨p, hp, rfl⟩
    have hj' : (S.map Package.pkgID)[j]? = some p.pkgID := by
      rw [List.getElem?_map, hp]
      rfl
    have hlast : lastIdxOf (S.map Package.pkgID) p.pkgID = some j :=
      lastIdxOf_of_nodup _ _ hn j hj'
    rw [hpidx]
    simp only [decide_eq_true_eq]
    constructor
    · intro hpi
      exact Option.some.inj (hlast.symm.trans hpi)
    · rintro rfl
      exact hlast
  have hoth : (marshalOther S).packages.filter
      (fun p =>
        primaryIdx (unmarshalPrimaryDoc (marshalPrimary S)) p.pkgid =
          some i) =
      (((marshalOther S).packages)[i]?).toList := by
    apply filter_eq_of_unique
    intro j e hj
    rw [show (marshalOther S).packages = S.map (fun p =>
        (⟨p.pkgID, p.name, p.arch, ⟨itoa p.epoch, p.version, p.release⟩,
          p.changelogs.map fun c =>
            ⟨c.author, c.date, c.text⟩⟩ : OtherPackageX))
      from rfl] at hj
    rw [List.getElem?_map] at hj
    rcases Option.map_eq_some'.mp hj with ⟨p, hp, rfl⟩
    have hj' : (S.map Package.pkgID)[j]? = some p.pkgID := by
      rw [List.getElem?_map, hp]
      rfl
    have hlast : lastIdxOf (S.map Package.pkgID) p.pkgID = some j :=
      lastIdxOf_of_nodup _ _ hn j hj'
    rw [hpidx]
    simp only [decide_eq_true_eq]
    constructor
    · intro hpi
      exact Option.some.inj (hlast.symm.trans hpi)
    · rintro rfl
      exact hlast
  rw [hbase, hfl, hoth]
  rw [show (marshalFilelists S).packages = S.map (fun p =>
      (⟨p.pkgID, p.name, p.arch, ⟨itoa p.epoch, p.version, p.release⟩,
        p.files.map fun f => ⟨f.ftype, f.path⟩⟩ : FilelistsPackageX))
    from rfl]
  rw [show (marshalOther S).packages = S.map (fun p =>
      (⟨p.pkgID, p.name, p.arch, ⟨itoa p.epoch, p.version, p.release⟩,
        p.changelogs.map fun c =>
          ⟨c.author, c.date, c.text⟩⟩ : OtherPackageX))
    from rfl]
  rw [List.getElem?_map, List.getElem?_map, List.getElem?_map,
    List.getElem?_map]
  cases hp : S[i]? with
  | none => simp
  | some p => simp [hp, fileRecs_round_comp, changelogs_round_comp,
      stripFormat]

/-- Claim C4, amended: with pairwise-distinct pkgids, rendering with
`RenderCoreXML` and parsing back with `ParsePackagesFromXML` through the
faithful decoder yields the rendered (NEVRA-sorted) descriptor list with
every field intact except the `rpm:`-tagged format fields (license,
vendor, group, buildhost, sourcerpm, header range, and the four
dependency lists), which Go's `encoding/xml` never populates on
unmarshal and therefore read back as zero values. Re-rendering the
parsed list reproduces the filelists and other payloads exactly, and a
primary payload that decodes to the same document as the original. -/
theorem render_parse_render (pkgs : List Package)
    (hids : (pkgs.map Package.pkgID).Nodup) :
    ParsePackagesFromXML (unmarshalPrimaryDoc (RenderCoreXML pkgs).1)
        (RenderCoreXML pkgs).2.1 (RenderCoreXML pkgs).2.2 =
      (sortByNEVRA pkgs).map stripFormat ∧
    (RenderCoreXML (ParsePackagesFromXML
        (unmarshalPrimaryDoc (RenderCoreXML pkgs).1)
        (RenderCoreXML pkgs).2.1 (RenderCoreXML pkgs).2.2)).2.1 =
      (RenderCoreXML pkgs).2.1 ∧
    (RenderCoreXML (ParsePackagesFromXML
        (unmarshalPrimaryDoc (RenderCoreXML pkgs).1)
        (RenderCoreXML pkgs).2.1 (RenderCoreXML pkgs).2.2)).2.2 =
      (RenderCoreXML pkgs).2.2 ∧
    unmarshalPrimaryDoc (RenderCoreXML (ParsePackagesFromXML
        (unmarshalPrimaryDoc (RenderCoreXML pkgs).1)
        (RenderCoreXML pkgs).2.1 (RenderCoreXML pkgs).2.2)).1 =
      unmarshalPrimaryDoc (RenderCoreXML pkgs).1 := by
  have hperm : List.Perm (sortByNEVRA pkgs) pkgs :=
    List.perm_insertionSort _ _
  have hn : ((sortByNEVRA pkgs).map Package.pkgID).Nodup :=
    ((hperm.map Package.pkgID).nodup_iff).mpr hids
  have h1 : ParsePackagesFromXML
      (unmarshalPrimaryDoc (RenderCoreXML pkgs).1)
      (RenderCoreXML pkgs).2.1 (RenderCoreXML pkgs).2.2 =
      (sortByNEVRA pkgs).map stripFormat := by
    show ParsePackagesFromXML
        (unmarshalPrimaryDoc (marshalPrimary (sortByNEVRA pkgs)))
        (marshalFilelists (sortByNEVRA pkgs))
        (marshalOther (sortByNEVRA pkgs)) =
      (sortByNEVRA pkgs).map stripFormat
    exact parse_unmarshal_marshal_eq _ hn
  refine ⟨h1, ?_, ?_, ?_⟩
  · rw [h1]
    show marshalFilelists
        (sortByNEVRA ((sortByNEVRA pkgs).map stripFormat)) =
      marshalFilelists (sortByNEVRA pkgs)
    rw [sortByNEVRA_map_strip, marshalFilelists_strip]
  · rw [h1]
    show marshalOther (sortByNEVRA ((sortByNEVRA pkgs).map stripFormat)) =
      marshalOther (sortByNEVRA pkgs)
    rw [sortByNEVRA_map_strip, marshalOther_strip]
  · rw [h1]
    show unmarshalPrimaryDoc (marshalPrimary
        (sortByNEVRA ((sortByNEVRA pkgs).map stripFormat))) =
      unmarshalPrimaryDoc (marshalPrimary (sortByNEVRA pkgs))
    rw [sortByNEVRA_map_strip]
    exact unmarshal_marshalPrimary_strip _

/-- Concrete inputs for the C4 witness: distinct pkgids, one package
carrying `rpm:`-tagged format data. -/
def c4wb : Package :=
  { mkPkg "b" "1" "p2" "b.rpm" with
    license := "MIT",
    provides := [⟨"libfoo", "GE", 0, "1.0", "", false⟩] }

def c4w : List Package := [c4wb, mkPkg "a" "1" "p1" "a.rpm"]

/-- Witness for the amended C4 at concrete inputs. -/
theorem render_parse_render_witness :
    ParsePackagesFromXML (unmarshalPrimaryDoc (RenderCoreXML c4w).1)
        (RenderCoreXML c4w).2.1 (RenderCoreXML c4w).2.2 =
      (sortByNEVRA c4w).map stripFormat ∧
    (RenderCoreXML (ParsePackagesFromXML
        (unmarshalPrimaryDoc (RenderCoreXML c4w).1)
        (RenderCoreXML c4w).2.1 (RenderCoreXML c4w).2.2)).2.1 =
      (RenderCoreXML c4w).2.1 ∧
    (RenderCoreXML (ParsePackagesFromXML
        (unmarshalPrimaryDoc (RenderCoreXML c4w).1)
        (RenderCoreXML c4w).2.1 (RenderCoreXML c4w).2.2)).2.2 =
      (RenderCoreXML c4w).2.2 ∧
    unmarshalPrimaryDoc (RenderCoreXML (ParsePackagesFromXML
        (unmarshalPrimaryDoc (RenderCoreXML c4w).1)
        (RenderCoreXML c4w).2.1 (RenderCoreXML c4w).2.2)).1 =
      unmarshalPrimaryDoc (RenderCoreXML c4w).1 :=
  render_parse_render c4w (by decide)

end RpmRepo
